import Mathlib

/-!
# A verification development for the SMF mesh viewer (`main.cpp`)

The program loads a triangle mesh in SMF text format, averages vertex
normals, computes a centroid and a scale, and renders the mesh under three
shading modes driven by single-key commands.

Conventions of the embedding

* `float` is modelled by an ordered field `K` with exact arithmetic; the
  theorems that need the real square root are stated for `ℝ` and
  `Real.sqrt`.  The C library functions `sqrtf` and `pow` and the stream
  extraction operators of the C++ standard library are not part of the
  repository; they are taken as parameters.
* `int` is modelled by `Int`; a vector access with an index outside the
  vector is undefined behaviour and is modelled by the result `none`.
* global variables are fields of explicit state records.
-/

namespace SMFViewer

/-! ## Math helpers (`main.cpp` lines 18-24) -/

/-- The record `struct Vec3 { float x,y,z; }`. -/
structure Vec3 (K : Type) where
  x : K
  y : K
  z : K
deriving DecidableEq, Repr

section MathHelpers

variable {K : Type} [LinearOrderedField K]

/-- The default constructor `Vec3()`, all coordinates zero. -/
def Vec3.zero : Vec3 K := ⟨0, 0, 0⟩

/-- The source `operator+` on `Vec3`. -/
def Vec3.add (a b : Vec3 K) : Vec3 K := ⟨a.x + b.x, a.y + b.y, a.z + b.z⟩

/-- The source `operator-` on `Vec3`. -/
def Vec3.sub (a b : Vec3 K) : Vec3 K := ⟨a.x - b.x, a.y - b.y, a.z - b.z⟩

/-- The source `operator*` of a `Vec3` by a scalar. -/
def Vec3.scale (a : Vec3 K) (s : K) : Vec3 K := ⟨a.x * s, a.y * s, a.z * s⟩

/-- The source `len`: `sqrtf(a.x*a.x+a.y*a.y+a.z*a.z)`. -/
def len (sqrtf : K → K) (a : Vec3 K) : K :=
  sqrtf (a.x * a.x + a.y * a.y + a.z * a.z)

/-- The source `normalize`: the zero vector when the length is below `1e-6`,
the vector divided by its length otherwise. -/
def normalize (sqrtf : K → K) (a : Vec3 K) : Vec3 K :=
  let L := len sqrtf a
  if L < 1 / 1000000 then ⟨0, 0, 0⟩ else ⟨a.x / L, a.y / L, a.z / L⟩

/-- The source `cross`. -/
def cross (a b : Vec3 K) : Vec3 K :=
  ⟨a.y * b.z - a.z * b.y, a.z * b.x - a.x * b.z, a.x * b.y - a.y * b.x⟩

end MathHelpers

/-! ## Mesh (`main.cpp` lines 27-33) -/

/-- The record `struct Vertex { Vec3 p; Vec3 n; }`. -/
structure Vertex (K : Type) where
  p : Vec3 K
  n : Vec3 K
deriving DecidableEq, Repr

/-- The record `struct Tri { int a,b,c; Vec3 fn; }`. -/
structure Tri (K : Type) where
  a : Int
  b : Int
  c : Int
  fn : Vec3 K
deriving DecidableEq, Repr

/-- The mesh globals `vertices`, `triangles`, `centroid`, `modelScale`. -/
structure Mesh (K : Type) where
  vertices : List (Vertex K)
  triangles : List (Tri K)
  centroid : Vec3 K
  modelScale : K
deriving DecidableEq, Repr

/-! ## Text input -/

/-- A formatted extraction `ss >> value` of the standard library: from the
unread characters of the stream it yields the value read and the characters
left, or `none` when the extraction fails. -/
abbrev Reader (α : Type) := List Char → Option (α × List Char)

/-- The character class `std::isspace` of the "C" locale, which formatted
extraction skips. -/
def isspace (c : Char) : Bool :=
  c == ' ' || c == '\t' || c == '\n' || c == '\x0b' || c == '\x0c' || c == '\r'

/-- The extraction `char c; ss >> c`: skip white space, read one character;
fails on a line with no other character. -/
def readChar : Reader Char := fun s =>
  match s.dropWhile isspace with
  | [] => none
  | c :: rest => some (c, rest)

/-- One call of `std::getline(fin, line)` after the other until the stream is
exhausted: `cur` holds (reversed) the characters of the line being read. -/
def getlinesAux : List Char → List Char → List (List Char)
  | [], cur => if cur.isEmpty then [] else [cur.reverse]
  | c :: rest, cur =>
    if c = '\n' then cur.reverse :: getlinesAux rest [] else getlinesAux rest (c :: cur)

/-- The lines that the loop `while(std::getline(fin, line))` visits. -/
def getlines (text : List Char) : List (List Char) := getlinesAux text []

/-- A vector access `v[i]` with an `int` index: `none` outside the vector. -/
def at? {α : Type} (v : List α) (i : Int) : Option α :=
  if 0 ≤ i then v[i.toNat]? else none

/-! ## SMF loader and normal averaging (`main.cpp` lines 71-103) -/

section Loader

variable {K : Type} [LinearOrderedField K]

/-- The locals `pts` and the global `triangles` while the file is read. -/
structure ParseState (K : Type) where
  pts : List (Vec3 K)
  triangles : List (Tri K)
deriving DecidableEq, Repr

/-- The body of the reading loop (lines 77-82) for one line.  After a numeric
extraction that fails the variable read is zero or has no specified value,
depending on the state of the stream; such a run is not followed and gives
`none`, as does an index outside `pts`, which is undefined behaviour. -/
def processLine (rdF : Reader K) (rdI : Reader Int) (sqrtf : K → K)
    (st : ParseState K) (line : List Char) : Option (ParseState K) :=
  match readChar line with
  | none => some st
  | some (c, r0) =>
    if c = 'v' then
      match rdF r0 with
      | none => none
      | some (x, r1) =>
        match rdF r1 with
        | none => none
        | some (y, r2) =>
          match rdF r2 with
          | none => none
          | some (z, _) => some { st with pts := st.pts ++ [⟨x, y, z⟩] }
    else if c = 'f' then
      match rdI r0 with
      | none => none
      | some (a, r1) =>
        match rdI r1 with
        | none => none
        | some (b, r2) =>
          match rdI r2 with
          | none => none
          | some (c2, _) =>
            let ta := a - 1
            let tb := b - 1
            let tc := c2 - 1
            match at? st.pts tb, at? st.pts ta, at? st.pts tc with
            | some pb, some pa, some pc =>
              let u := pb.sub pa
              let v := pc.sub pa
              some { st with
                triangles := st.triangles ++ [⟨ta, tb, tc, normalize sqrtf (cross u v)⟩] }
            | _, _, _ => none
    else some st

/-- The reading loop (lines 76-83) over the lines of the file. -/
def readLines (rdF : Reader K) (rdI : Reader Int) (sqrtf : K → K)
    (st : ParseState K) (lines : List (List Char)) : Option (ParseState K) :=
  lines.foldlM (processLine rdF rdI sqrtf) st

/-- Lines 85-86: one vertex per point, with a zero normal. -/
def buildVertices (pts : List (Vec3 K)) : List (Vertex K) :=
  pts.map fun p => ⟨p, ⟨0, 0, 0⟩⟩

/-- The statement `vertices[i].n = vertices[i].n + fn`. -/
def addNormal (vs : List (Vertex K)) (i : Int) (fn : Vec3 K) : Option (List (Vertex K)) :=
  match at? vs i with
  | none => none
  | some v => some (vs.set i.toNat { v with n := v.n.add fn })

/-- The body of the loop of lines 87-91 for one triangle. -/
def accumulateTri (vs : List (Vertex K)) (t : Tri K) : Option (List (Vertex K)) :=
  match addNormal vs t.a t.fn with
  | none => none
  | some vs1 =>
    match addNormal vs1 t.b t.fn with
    | none => none
    | some vs2 => addNormal vs2 t.c t.fn

/-- The loop of lines 87-91. -/
def accumulateNormals (vs : List (Vertex K)) (tris : List (Tri K)) :
    Option (List (Vertex K)) :=
  tris.foldlM accumulateTri vs

/-- Line 92: `for(auto &v : vertices) v.n = normalize(v.n)`. -/
def normalizeNormals (sqrtf : K → K) (vs : List (Vertex K)) : List (Vertex K) :=
  vs.map fun v => { v with n := normalize sqrtf v.n }

/-- Lines 94-96: the sum of the positions times `1.0f / vertices.size()`. -/
def computeCentroid (vs : List (Vertex K)) : Vec3 K :=
  (vs.foldl (fun (c : Vec3 K) v => c.add v.p) ⟨0, 0, 0⟩).scale (1 / (vs.length : K))

/-- Lines 97-98: the running maximum of `len(v.p - centroid)`, from `0`. -/
def computeMaxd (sqrtf : K → K) (vs : List (Vertex K)) (centroid : Vec3 K) : K :=
  vs.foldl (fun maxd v => max maxd (len sqrtf (v.p.sub centroid))) 0

/-- Lines 99-100: `if(maxd < 1e-6f) maxd = 1.0f; modelScale = 1.0f / maxd`. -/
def scaleOf (maxd : K) : K :=
  let maxd := if maxd < 1 / 1000000 then 1 else maxd
  1 / maxd

/-- Lines 84-100, from the points and triangles read. -/
def finishLoad (sqrtf : K → K) (st : ParseState K) : Option (Mesh K) :=
  match accumulateNormals (buildVertices st.pts) st.triangles with
  | none => none
  | some vs =>
    let vertices := normalizeNormals sqrtf vs
    let centroid := computeCentroid vertices
    let maxd := computeMaxd sqrtf vertices centroid
    some ⟨vertices, st.triangles, centroid, scaleOf maxd⟩

/-- The source `loadSMF`.  `file` is the content of the file at `path`, `none`
when it cannot be opened; `g` holds the mesh globals at the call.  The result
is the returned flag and the globals after the call, or `none` when the run
has undefined behaviour. -/
def loadSMF (rdF : Reader K) (rdI : Reader Int) (sqrtf : K → K)
    (file : Option (List Char)) (g : Mesh K) : Option (Bool × Mesh K) :=
  match file with
  | none => some (false, g)
  | some text =>
    match readLines rdF rdI sqrtf ⟨[], g.triangles⟩ (getlines text) with
    | none => none
    | some st =>
      match finishLoad sqrtf st with
      | none => none
      | some g1 => some (true, g1)

/-- The mesh globals at program start (lines 30-33). -/
def initialMesh : Mesh K := ⟨[], [], ⟨0, 0, 0⟩, 1⟩

end Loader

/-! ## Sample extractions

The theorems below hold for every pair of numeric extractions.  The worked
examples run the loader with the following ones, which read optionally signed
decimal numerals. -/

/-- The digits at the head of the stream as a number, `none` without a digit. -/
def readDigits (s : List Char) : Option (Nat × List Char) :=
  match s.span Char.isDigit with
  | ([], _) => none
  | (ds, rest) => some (ds.foldl (fun n d => 10 * n + (d.toNat - 48)) 0, rest)

/-- A sample `ss >> int`: white space, an optional `-`, decimal digits. -/
def sampleReadInt : Reader Int := fun s =>
  match s.dropWhile isspace with
  | '-' :: r =>
    match readDigits r with
    | none => none
    | some (n, rest) => some (-(n : Int), rest)
  | r =>
    match readDigits r with
    | none => none
    | some (n, rest) => some ((n : Int), rest)

/-- A sample `ss >> float`: a sample integer, cast to the field. -/
def sampleReadFloat {K : Type} [LinearOrderedField K] : Reader K := fun s =>
  match sampleReadInt s with
  | none => none
  | some (n, rest) => some ((n : K), rest)

/-! ## The SMF format, as the specification words it -/

section Format

variable {K : Type} [LinearOrderedField K]

/-- Three successive extractions of the same type from a stream. -/
def read3 {α : Type} (rd : Reader α) (s : List Char) : Option (α × α × α) :=
  (rd s).bind fun r1 => (rd r1.2).bind fun r2 => (rd r2.2).map fun r3 => (r1.1, r2.1, r3.1)

/-- What a line of an SMF text says: a vertex `v x y z`, a face `f a b c`, a
line that is neither (`other`), or a `v` or `f` line whose numbers cannot be
read (`malformed`). -/
inductive SMFLine (K : Type) where
  | vertex (p : Vec3 K)
  | face (a b c : Int)
  | other
  | malformed
deriving DecidableEq, Repr

/-- The reading of one line: its kind is decided by its first non-blank
character. -/
def lineKind (rdF : Reader K) (rdI : Reader Int) (line : List Char) : SMFLine K :=
  match readChar line with
  | none => .other
  | some (c, rest) =>
    if c = 'v' then
      match read3 rdF rest with
      | some (x, y, z) => .vertex ⟨x, y, z⟩
      | none => .malformed
    else if c = 'f' then
      match read3 rdI rest with
      | some (a, b, c2) => .face a b c2
      | none => .malformed
    else .other

/-- The coordinates of the `v` lines, in file order. -/
def vLines (rdF : Reader K) (rdI : Reader Int) (lines : List (List Char)) : List (Vec3 K) :=
  lines.filterMap fun l =>
    match lineKind rdF rdI l with
    | .vertex p => some p
    | _ => none

/-- The 1-based index triples of the `f` lines, in file order. -/
def fLines (rdF : Reader K) (rdI : Reader Int) (lines : List (List Char)) :
    List (Int × Int × Int) :=
  lines.filterMap fun l =>
    match lineKind rdF rdI l with
    | .face a b c => some (a, b, c)
    | _ => none

/-- A 1-based index names one of the first `n` vertices. -/
def inRange (n : Nat) (a : Int) : Bool := decide (1 ≤ a) && decide (a ≤ (n : Int))

/-- The ordering precondition: no line is malformed and every face line names
only vertices declared on earlier `v` lines; `n` counts the `v` lines already
seen. -/
def facesOrdered (rdF : Reader K) (rdI : Reader Int) : Nat → List (List Char) → Bool
  | _, [] => true
  | n, l :: ls =>
    match lineKind rdF rdI l with
    | .vertex _ => facesOrdered rdF rdI (n + 1) ls
    | .face a b c =>
      inRange n a && inRange n b && inRange n c && facesOrdered rdF rdI n ls
    | .other => facesOrdered rdF rdI n ls
    | .malformed => false

/-- The first non-blank character of the line is `v` or `f`. -/
def isVF (line : List Char) : Bool :=
  match readChar line with
  | none => false
  | some (c, _) => c == 'v' || c == 'f'

/-- The face normal of a triangle over the positions `P`, as the
specification words it: `normalize(cross(p[b]-p[a], p[c]-p[a]))`. -/
def HasFaceNormal (sqrtf : K → K) (P : List (Vec3 K)) (t : Tri K) : Prop :=
  ∃ pa pb pc, at? P t.a = some pa ∧ at? P t.b = some pb ∧ at? P t.c = some pc ∧
    t.fn = normalize sqrtf (cross (pb.sub pa) (pc.sub pa))

end Format

/-! ## Notions used to state the loader's contract -/

section LoaderSpec

variable {K : Type} [LinearOrderedField K]

/-- The index triple of a triangle. -/
def Tri.corners (t : Tri K) : Int × Int × Int := (t.a, t.b, t.c)

/-- The 0-based triple of a 1-based face line. -/
def zeroBased (f : Int × Int × Int) : Int × Int × Int := (f.1 - 1, f.2.1 - 1, f.2.2 - 1)

/-- The sum of a list of vectors. -/
def vsum (l : List (Vec3 K)) : Vec3 K := l.foldr Vec3.add Vec3.zero

/-- Vertex `i` is a corner of the triangle. -/
def incident (i : Nat) (t : Tri K) : Bool :=
  decide (t.a = (i : Int)) || decide (t.b = (i : Int)) || decide (t.c = (i : Int))

/-- What the loop of lines 87-91 adds to the normal of vertex `i` for one
triangle: the face normal once for every corner that is `i`. -/
def contrib (i : Nat) (t : Tri K) : Vec3 K :=
  ((if t.a = (i : Int) then t.fn else Vec3.zero).add
    (if t.b = (i : Int) then t.fn else Vec3.zero)).add
    (if t.c = (i : Int) then t.fn else Vec3.zero)

/-- All three corner indices of the triangle are valid for `n` vertices. -/
def InBounds (n : Nat) (t : Tri K) : Prop :=
  (0 ≤ t.a ∧ t.a < (n : Int)) ∧ (0 ≤ t.b ∧ t.b < (n : Int)) ∧ (0 ≤ t.c ∧ t.c < (n : Int))

/-- The arithmetic mean of a list of points, coordinate by coordinate. -/
def mean (ps : List (Vec3 K)) : Vec3 K :=
  ⟨(ps.map fun p => p.x).sum / (ps.length : K), (ps.map fun p => p.y).sum / (ps.length : K),
    (ps.map fun p => p.z).sum / (ps.length : K)⟩

/-- The Euclidean distance between two points, over a square root `sqrtf`. -/
def distance (sqrtf : K → K) (p c : Vec3 K) : K :=
  sqrtf ((p.x - c.x) ^ 2 + (p.y - c.y) ^ 2 + (p.z - c.z) ^ 2)

end LoaderSpec

/-! ## The vector accesses of `loadSMF` -/

/-- One indexing `v[i]` of a vector: the index, converted from `int`, and the
size of the vector at that moment. -/
structure IndexAccess where
  index : Int
  size : Nat
deriving DecidableEq, Repr

/-- The access is inside the vector. -/
def IndexAccess.inBounds (a : IndexAccess) : Bool :=
  decide (0 ≤ a.index) && decide (a.index < (a.size : Int))

section Accesses

variable {K : Type} [LinearOrderedField K]

/-- The indexings of `pts` that the loop body performs on one line (line 81):
`pts[t.b]`, `pts[t.a]`, `pts[t.c]`, `pts[t.a]` on a face line whose three
indices are read, none on any other line. -/
def lineAccesses (rdI : Reader Int) (pts : List (Vec3 K)) (line : List Char) :
    List IndexAccess :=
  match readChar line with
  | none => []
  | some (c, r0) =>
    if c = 'v' then []
    else if c = 'f' then
      match rdI r0 with
      | none => []
      | some (a, r1) =>
        match rdI r1 with
        | none => []
        | some (b, r2) =>
          match rdI r2 with
          | none => []
          | some (c2, _) =>
            [⟨b - 1, pts.length⟩, ⟨a - 1, pts.length⟩, ⟨c2 - 1, pts.length⟩,
              ⟨a - 1, pts.length⟩]
    else []

/-- The indexings of `pts` during the reading loop (lines 76-83), in order.
The run is followed up to the first line on which `processLine` is not
defined. -/
def readAccesses (rdF : Reader K) (rdI : Reader Int) (sqrtf : K → K) :
    List (List Char) → ParseState K → List IndexAccess
  | [], _ => []
  | l :: ls, st =>
    lineAccesses rdI st.pts l ++
      match processLine rdF rdI sqrtf st l with
      | some st1 => readAccesses rdF rdI sqrtf ls st1
      | none => []

/-- The indexings of one pass of the loop of lines 87-91 over `n` vertices:
`vertices[t.a]`, `vertices[t.b]`, `vertices[t.c]`, each on both sides of its
assignment. -/
def triAccesses (n : Nat) (t : Tri K) : List IndexAccess :=
  [⟨t.a, n⟩, ⟨t.a, n⟩, ⟨t.b, n⟩, ⟨t.b, n⟩, ⟨t.c, n⟩, ⟨t.c, n⟩]

/-- The indexings of lines 85-91 once the file is read: `vertices[i]`,
`pts[i]`, `vertices[i]` for every `i` below `pts.size()` (line 86), then the
accesses of every triangle into `vertices`, which has the size of `pts`. -/
def finishAccesses (st : ParseState K) : List IndexAccess :=
  (List.range st.pts.length).flatMap
      (fun i => [⟨(i : Int), st.pts.length⟩, ⟨(i : Int), st.pts.length⟩,
        ⟨(i : Int), st.pts.length⟩])
    ++ st.triangles.flatMap (triAccesses st.pts.length)

/-- All indexings of `pts` and `vertices` in a run of `loadSMF` on a file that
opens. -/
def loadAccesses (rdF : Reader K) (rdI : Reader Int) (sqrtf : K → K) (text : List Char)
    (g : Mesh K) : List IndexAccess :=
  readAccesses rdF rdI sqrtf (getlines text) ⟨[], g.triangles⟩ ++
    match readLines rdF rdI sqrtf ⟨[], g.triangles⟩ (getlines text) with
    | some st => finishAccesses st
    | none => []

/-- Every `v` line and every `f` line has its three numbers read. -/
def wellRead (rdF : Reader K) (rdI : Reader Int) (lines : List (List Char)) : Bool :=
  lines.all fun l =>
    match lineKind rdF rdI l with
    | .malformed => false
    | _ => true

end Accesses

/-- An SMF text whose face line precedes the vertex lines it names. -/
def faceFirstText : List Char :=
  ("f 1 2 3\nv 0 0 0\nv 1 0 0\nv 0 1 0\n").toList

/-- An SMF text whose face line uses the index 0. -/
def indexZeroText : List Char :=
  ("v 0 0 0\nv 1 0 0\nv 0 1 0\nf 0 1 2\n").toList

/-- An SMF text whose face line uses an index above the vertex count. -/
def indexAboveText : List Char :=
  ("v 0 0 0\nv 1 0 0\nv 0 1 0\nf 1 2 4\n").toList

/-! ## The model transform of `drawMesh` (`main.cpp` lines 266-269) -/

section Transform

variable {K : Type} [LinearOrderedField K]

/-- The OpenGL call `glTranslatef(x, y, z)`: the current matrix is multiplied
on the right by the translation matrix, the product replacing it. -/
def glTranslatef (cur : Matrix (Fin 4) (Fin 4) K) (x y z : K) : Matrix (Fin 4) (Fin 4) K :=
  cur * !![1, 0, 0, x; 0, 1, 0, y; 0, 0, 1, z; 0, 0, 0, 1]

/-- The OpenGL call `glScalef(x, y, z)`: the current matrix is multiplied on
the right by the scaling matrix, the product replacing it. -/
def glScalef (cur : Matrix (Fin 4) (Fin 4) K) (x y z : K) : Matrix (Fin 4) (Fin 4) K :=
  cur * !![x, 0, 0, 0; 0, y, 0, 0; 0, 0, z, 0; 0, 0, 0, 1]

/-- The OpenGL vertex transform: the current matrix applied to the column
`(x, y, z, 1)` of a vertex given by `glVertex3f` or a 3-component attribute. -/
def transformPoint (cur : Matrix (Fin 4) (Fin 4) K) (v : Vec3 K) : Vec3 K :=
  let r := cur.mulVec ![v.x, v.y, v.z, 1]
  ⟨r 0, r 1, r 2⟩

/-- Lines 268-269 of `drawMesh`: the matrix under which the mesh vertices are
drawn, from the current matrix `cur` at the call. -/
def drawMeshMatrix (cur : Matrix (Fin 4) (Fin 4) K) (m : Mesh K) : Matrix (Fin 4) (Fin 4) K :=
  let afterTranslate := glTranslatef cur (-m.centroid.x) (-m.centroid.y) (-m.centroid.z)
  glScalef afterTranslate m.modelScale m.modelScale m.modelScale

end Transform

/-! ## Shaders (`main.cpp` lines 142-238)

The GLSL 1.20 sources of the four shaders, as functions of their uniforms and
inputs.  `sqrtf` stands for the square root inside the built-ins `length` and
`normalize`, `pow` for the built-in `pow`. -/

/-- The GLSL type `vec4`. -/
structure Vec4 (K : Type) where
  x : K
  y : K
  z : K
  w : K
deriving DecidableEq, Repr

namespace GLSL

variable {K : Type} [LinearOrderedField K]

/-- The built-in `dot` on `vec3`. -/
def dot (a b : Vec3 K) : K := a.x * b.x + a.y * b.y + a.z * b.z

/-- The built-in `normalize` on `vec3`: the vector divided by its length.
GLSL leaves the result for the zero vector undefined; the division by zero
of the field gives zero here. -/
def normalize (sqrtf : K → K) (v : Vec3 K) : Vec3 K :=
  let l := sqrtf (dot v v)
  ⟨v.x / l, v.y / l, v.z / l⟩

/-- Unary minus on `vec3`. -/
def neg (v : Vec3 K) : Vec3 K := ⟨-v.x, -v.y, -v.z⟩

/-- The built-in `reflect(I, N)`: `I - 2 * dot(N, I) * N`. -/
def reflect (i n : Vec3 K) : Vec3 K :=
  ⟨i.x - 2 * dot n i * n.x, i.y - 2 * dot n i * n.y, i.z - 2 * dot n i * n.z⟩

/-- The component-wise sum of two `vec4`. -/
def add4 (a b : Vec4 K) : Vec4 K := ⟨a.x + b.x, a.y + b.y, a.z + b.z, a.w + b.w⟩

/-- The component-wise product of two `vec4`. -/
def mul4 (a b : Vec4 K) : Vec4 K := ⟨a.x * b.x, a.y * b.y, a.z * b.z, a.w * b.w⟩

/-- The product of a `vec4` and a `float`. -/
def scale4 (a : Vec4 K) (s : K) : Vec4 K := ⟨a.x * s, a.y * s, a.z * s, a.w * s⟩

/-- The built-in `clamp(v, lo, hi)` on `vec4`: `min(max(v, lo), hi)` on every
component. -/
def clamp (v : Vec4 K) (lo hi : K) : Vec4 K :=
  ⟨min (max v.x lo) hi, min (max v.y lo) hi, min (max v.z lo) hi, min (max v.w lo) hi⟩

/-- The product of a `mat4` and a `vec4`. -/
def mulVec4 (m : Matrix (Fin 4) (Fin 4) K) (v : Vec4 K) : Vec4 K :=
  let r := m.mulVec ![v.x, v.y, v.z, v.w]
  ⟨r 0, r 1, r 2, r 3⟩

/-- The product of a `mat3` and a `vec3`. -/
def mulVec3 (m : Matrix (Fin 3) (Fin 3) K) (v : Vec3 K) : Vec3 K :=
  let r := m.mulVec ![v.x, v.y, v.z]
  ⟨r 0, r 1, r 2⟩

/-- The swizzle `.xyz` of a `vec4`. -/
def xyz (v : Vec4 K) : Vec3 K := ⟨v.x, v.y, v.z⟩

/-- The constructor `vec4(v, w)` from a `vec3` and a `float`. -/
def vec4 (v : Vec3 K) (w : K) : Vec4 K := ⟨v.x, v.y, v.z, w⟩

end GLSL

/-- The uniforms declared by the shaders. -/
structure Uniforms (K : Type) where
  modelViewMatrix : Matrix (Fin 4) (Fin 4) K
  projectionMatrix : Matrix (Fin 4) (Fin 4) K
  normalMatrix : Matrix (Fin 3) (Fin 3) K
  material_ambient : Vec4 K
  material_diffuse : Vec4 K
  material_specular : Vec4 K
  material_shininess : K
  light0_pos_eye : Vec3 K
  light0_ambient : Vec4 K
  light0_diffuse : Vec4 K
  light0_specular : Vec4 K
  light1_pos_eye : Vec3 K
  light1_ambient : Vec4 K
  light1_diffuse : Vec4 K
  light1_specular : Vec4 K

/-- The outputs of `gouraud_vs`. -/
structure GouraudOut (K : Type) where
  vColor : Vec4 K
  gl_Position : Vec4 K

/-- The outputs of `phong_vs`. -/
structure PhongOut (K : Type) where
  vPosEye : Vec3 K
  vNormalEye : Vec3 K
  gl_Position : Vec4 K

section Shaders

variable {K : Type} [LinearOrderedField K]

open GLSL

/-- The vertex shader `gouraud_vs` (lines 162-179). -/
def gouraud_vs (sqrtf : K → K) (pow : K → K → K) (u : Uniforms K) (inPos inNorm : Vec3 K) :
    GouraudOut K :=
  let posEye := mulVec4 u.modelViewMatrix (vec4 inPos 1)
  let N := GLSL.normalize sqrtf (mulVec3 u.normalMatrix inNorm)
  let V := GLSL.normalize sqrtf (neg (xyz posEye))
  let L0 := GLSL.normalize sqrtf (u.light0_pos_eye.sub (xyz posEye))
  let nL0 := max (dot N L0) 0
  let R0 := reflect (neg L0) N
  let s0 := if nL0 > 0 then pow (max (dot R0 V) 0) u.material_shininess else 0
  let L1 := GLSL.normalize sqrtf (u.light1_pos_eye.sub (xyz posEye))
  let nL1 := max (dot N L1) 0
  let R1 := reflect (neg L1) N
  let s1 := if nL1 > 0 then pow (max (dot R1 V) 0) u.material_shininess else 0
  let ambient := mul4 u.material_ambient (add4 u.light0_ambient u.light1_ambient)
  let diffuse := mul4 u.material_diffuse
    (add4 (scale4 u.light0_diffuse nL0) (scale4 u.light1_diffuse nL1))
  let spec := mul4 u.material_specular
    (add4 (scale4 u.light0_specular s0) (scale4 u.light1_specular s1))
  { vColor := add4 (add4 ambient diffuse) spec
    gl_Position := mulVec4 u.projectionMatrix posEye }

/-- The fragment shader `gouraud_fs` (line 185): the value of `gl_FragColor`. -/
def gouraud_fs (vColor : Vec4 K) : Vec4 K := GLSL.clamp vColor 0 1

/-- The vertex shader `phong_vs` (lines 197-202). -/
def phong_vs (sqrtf : K → K) (u : Uniforms K) (inPos inNorm : Vec3 K) : PhongOut K :=
  let posEye := mulVec4 u.modelViewMatrix (vec4 inPos 1)
  { vPosEye := xyz posEye
    vNormalEye := GLSL.normalize sqrtf (mulVec3 u.normalMatrix inNorm)
    gl_Position := mulVec4 u.projectionMatrix posEye }

/-- The fragment shader `phong_fs` (lines 221-237): the value of
`gl_FragColor`. -/
def phong_fs (sqrtf : K → K) (pow : K → K → K) (u : Uniforms K) (vPosEye vNormalEye : Vec3 K) :
    Vec4 K :=
  let N := GLSL.normalize sqrtf vNormalEye
  let V := GLSL.normalize sqrtf (neg vPosEye)
  let L0 := GLSL.normalize sqrtf (u.light0_pos_eye.sub vPosEye)
  let nL0 := max (dot N L0) 0
  let R0 := reflect (neg L0) N
  let s0 := if nL0 > 0 then pow (max (dot R0 V) 0) u.material_shininess else 0
  let L1 := GLSL.normalize sqrtf (u.light1_pos_eye.sub vPosEye)
  let nL1 := max (dot N L1) 0
  let R1 := reflect (neg L1) N
  let s1 := if nL1 > 0 then pow (max (dot R1 V) 0) u.material_shininess else 0
  let ambient := mul4 u.material_ambient (add4 u.light0_ambient u.light1_ambient)
  let diffuse := mul4 u.material_diffuse
    (add4 (scale4 u.light0_diffuse nL0) (scale4 u.light1_diffuse nL1))
  let spec := mul4 u.material_specular
    (add4 (scale4 u.light0_specular s0) (scale4 u.light1_specular s1))
  let color := add4 (add4 ambient diffuse) spec
  GLSL.clamp color 0 1

end Shaders

/-! ## The reflectance formula, as the specification words it -/

section Reflectance

variable {K : Type} [LinearOrderedField K]

/-- A light source: its position in eye space and its three colours. -/
structure Light (K : Type) where
  pos : Vec3 K
  ambient : Vec4 K
  diffuse : Vec4 K
  specular : Vec4 K

/-- The two lights of the uniforms. -/
def Uniforms.lights (u : Uniforms K) : List (Light K) :=
  [⟨u.light0_pos_eye, u.light0_ambient, u.light0_diffuse, u.light0_specular⟩,
   ⟨u.light1_pos_eye, u.light1_ambient, u.light1_diffuse, u.light1_specular⟩]

/-- The Blinn-Phong specular base: `dot(N, H)` with `H` the normalized
half-vector between the light direction `L` and the view direction `V`. -/
def blinnBase (sqrtf : K → K) (N L V : Vec3 K) : K :=
  GLSL.dot N (GLSL.normalize sqrtf (L.add V))

/-- The Phong specular base: `dot(R, V)` with `R` the mirror image
`2 * dot(N, L) * N - L` of the light direction about the normal. -/
def phongBase (N L V : Vec3 K) : K :=
  GLSL.dot ⟨2 * GLSL.dot N L * N.x - L.x, 2 * GLSL.dot N L * N.y - L.y,
    2 * GLSL.dot N L * N.z - L.z⟩ V

/-- The contribution of one light at a point `P` with normal `N`:
`ambient + diffuse * max(dot(N,L),0) + specular * factor`, the factor being
`max(base, 0)` raised to the shininess, and `0` when `dot(N,L) ≤ 0`. -/
def lightTerm (sqrtf : K → K) (pow : K → K → K) (base : Vec3 K → Vec3 K → Vec3 K → K)
    (u : Uniforms K) (N P : Vec3 K) (l : Light K) : Vec4 K :=
  let L := GLSL.normalize sqrtf (l.pos.sub P)
  let V := GLSL.normalize sqrtf (GLSL.neg P)
  let factor := if GLSL.dot N L ≤ 0 then 0 else pow (max (base N L V) 0) u.material_shininess
  GLSL.add4
    (GLSL.add4 (GLSL.mul4 u.material_ambient l.ambient)
      (GLSL.scale4 (GLSL.mul4 u.material_diffuse l.diffuse) (max (GLSL.dot N L) 0)))
    (GLSL.scale4 (GLSL.mul4 u.material_specular l.specular) factor)

/-- The reflectance formula: the light terms summed over both lights and
clamped to `[0, 1]`. -/
def reflectance (sqrtf : K → K) (pow : K → K → K) (base : Vec3 K → Vec3 K → Vec3 K → K)
    (u : Uniforms K) (N P : Vec3 K) : Vec4 K :=
  GLSL.clamp ((u.lights.map (lightTerm sqrtf pow base u N P)).foldr GLSL.add4 ⟨0, 0, 0, 0⟩) 0 1

end Reflectance

/-! ## Camera and UI state, materials (`main.cpp` lines 41-68) -/

/-- The record `struct Material`. -/
structure Material (K : Type) where
  ambient : Vec4 K
  diffuse : Vec4 K
  specular : Vec4 K
  shininess : K
  name : String
deriving DecidableEq, Repr

/-- The globals of lines 41-48 and the vector `materials`. -/
structure UIState (K : Type) where
  camAngle : K
  camRadius : K
  camHeight : K
  perspectiveOn : Bool
  shadeMode : Int
  materialIndex : Int
  autoRotateLight : Bool
  lightAngle : K
  lightRadius : K
  lightHeight : K
  winW : Int
  winH : Int
  materials : List (Material K)
deriving DecidableEq, Repr

section UI

variable {K : Type} [LinearOrderedField K]

/-- The initial values of the globals (lines 41-48, 58). -/
def initialUI : UIState K :=
  { camAngle := 0.0
    camRadius := 3.0
    camHeight := 0.0
    perspectiveOn := true
    shadeMode := 3
    materialIndex := 0
    autoRotateLight := false
    lightAngle := 0.0
    lightRadius := 1.2
    lightHeight := 0.5
    winW := 900
    winH := 700
    materials := [] }

/-- The source `initMaterials`. -/
def initMaterials (s : UIState K) : UIState K :=
  { s with materials :=
      [ { ambient := ⟨0.25, 0.25, 0.25, 1.0⟩, diffuse := ⟨0.8, 0.8, 0.8, 1.0⟩,
          specular := ⟨1.0, 1.0, 1.0, 1.0⟩, shininess := 120.0, name := "White Shiny" },
        { ambient := ⟨0.24725, 0.1995, 0.0745, 1.0⟩,
          diffuse := ⟨0.75164, 0.60648, 0.22648, 1.0⟩,
          specular := ⟨0.628281, 0.555802, 0.366065, 1.0⟩, shininess := 51.2, name := "Gold" },
        { ambient := ⟨0.6, 0.2, 0.2, 1.0⟩, diffuse := ⟨0.9, 0.1, 0.1, 1.0⟩,
          specular := ⟨0.8, 0.8, 0.8, 1.0⟩, shininess := 80.0, name := "Red Bright Spec" } ] }

/-- The state in which `main` enters `glutMainLoop`: `initMaterials()` has
run and line 518 has set `autoRotateLight = false`. -/
def mainInit : UIState K :=
  { (initMaterials initialUI : UIState K) with autoRotateLight := false }

/-- The outcome of a callback: the next state, the end of the process by
`exit(0)`, or undefined behaviour. -/
inductive Outcome (K : Type) where
  | next (s : UIState K)
  | exited
  | undefined
deriving DecidableEq, Repr

/-- The literal `6.28318530718f` of `idle`, the program's value of `2*pi`. -/
def twoPi : K := 6.28318530718

/-- The source `idle`; its `glutPostRedisplay()` changes no global. -/
def idle (s : UIState K) : UIState K :=
  if s.autoRotateLight then
    let lightAngle := s.lightAngle + 0.01
    { s with lightAngle := if lightAngle > twoPi then lightAngle - twoPi else lightAngle }
  else s

/-- The source `keyboard`; the pointer position `x`, `y` is not used.  In
case `m` the `int` sum `materialIndex + 1` is converted to the unsigned 64-bit
`size_t` before the remainder is taken; an overflow of that sum and a
remainder by the size of an empty `materials` are undefined.  The closing
`glutPostRedisplay()` asks GLUT for a redraw and changes no global. -/
def keyboard (key : Char) (_x _y : Int) (s : UIState K) : Outcome K :=
  if key = Char.ofNat 27 then .exited
  else if key = 'a' then .next { s with camAngle := s.camAngle - 0.05 }
  else if key = 'd' then .next { s with camAngle := s.camAngle + 0.05 }
  else if key = 'w' then .next { s with camHeight := s.camHeight + 0.08 }
  else if key = 's' then .next { s with camHeight := s.camHeight - 0.08 }
  else if key = 'q' then .next { s with camRadius := s.camRadius + 0.08 }
  else if key = 'e' then .next { s with camRadius := max 0.1 (s.camRadius - 0.08) }
  else if key = 'p' then .next { s with perspectiveOn := !s.perspectiveOn }
  else if key = '1' then .next { s with shadeMode := 1 }
  else if key = '2' then .next { s with shadeMode := 2 }
  else if key = '3' then .next { s with shadeMode := 3 }
  else if key = 'm' then
    if s.materialIndex + 1 > 2147483647 ∨ s.materials.length = 0 then .undefined
    else .next { s with
      materialIndex := ((s.materialIndex + 1) % 2 ^ 64) % (s.materials.length : Int) }
  else if key = 'l' then .next { s with autoRotateLight := !s.autoRotateLight }
  else if key = 'r' then
    .next { s with
      camAngle := 0, camRadius := 3.0, camHeight := 0.0,
      lightAngle := 0.0, lightRadius := 1.2, lightHeight := 0.5 }
  else if key = 'z' then .next { s with lightAngle := s.lightAngle - 0.08 }
  else if key = 'x' then .next { s with lightAngle := s.lightAngle + 0.08 }
  else if key = 'c' then .next { s with lightRadius := max 0.05 (s.lightRadius - 0.05) }
  else if key = 'v' then .next { s with lightRadius := s.lightRadius + 0.05 }
  else if key = 'b' then .next { s with lightHeight := s.lightHeight - 0.05 }
  else if key = 'n' then .next { s with lightHeight := s.lightHeight + 0.05 }
  else .next s

/-- The source `reshape`. -/
def reshape (w h : Int) (s : UIState K) : UIState K := { s with winW := w, winH := h }

/-- An event that GLUT delivers to a registered callback. -/
inductive Event where
  | key (c : Char) (x y : Int)
  | idle
  | reshape (w h : Int)
deriving DecidableEq, Repr

/-- One callback invocation. -/
def step (s : UIState K) : Event → Outcome K
  | .key c x y => keyboard c x y s
  | .idle => .next (idle s)
  | .reshape w h => .next (reshape w h s)

/-- The main loop over a sequence of events: it ends at the first event whose
callback does not return. -/
def run (s : UIState K) : List Event → Outcome K
  | [] => .next s
  | e :: es =>
    match step s e with
    | .next s1 => run s1 es
    | .exited => .exited
    | .undefined => .undefined

/-- The HUD lines that `display` builds (lines 437-449).  `fmt` stands for the
`%.2f` conversion of `snprintf`, whose output is cut to the 127 characters
that fit `buf`; `none` when `materials[materialIndex]` is outside the
vector. -/
def hudLines (fmt : K → String) (s : UIState K) : Option (List String) :=
  match at? s.materials s.materialIndex with
  | none => none
  | some mat =>
    some
      [ "Material: " ++ mat.name,
        "Shade: " ++ (if s.shadeMode = 1 then "Flat" else if s.shadeMode = 2 then "Gouraud"
          else "Phong"),
        "Controls:",
        "A/D - orbit   W/S - height   Q/E - radius   P - projection",
        "1-Flat  2-Gouraud  3-Phong   M - material",
        "L - toggle auto-rotate light (default OFF)",
        "Light1 (object coords): Z/X angle  C/V radius  B/N height",
        String.mk (("Light angle: " ++ fmt s.lightAngle ++ "  radius: " ++ fmt s.lightRadius
          ++ "  height: " ++ fmt s.lightHeight).toList.take 127),
        "R - reset   ESC - exit" ]

/-- The invariant of the main loop on the material selection. -/
def MaterialsOk (s : UIState K) : Prop :=
  s.materials.length = 3 ∧ 0 ≤ s.materialIndex ∧ s.materialIndex < 3

/-- The invariant of the main loop on the shading mode. -/
def ShadeOk (s : UIState K) : Prop :=
  s.shadeMode = 1 ∨ s.shadeMode = 2 ∨ s.shadeMode = 3

/-- The invariant of the main loop on the two radii: the clamps of the `e` and
`c` cases. -/
def RadiiOk (s : UIState K) : Prop :=
  0.1 ≤ s.camRadius ∧ 0.05 ≤ s.lightRadius

/-- The keys that `keyboard` handles. -/
def handledKeys : List Char :=
  [Char.ofNat 27, 'a', 'd', 'w', 's', 'q', 'e', 'p', '1', '2', '3', 'm', 'l', 'r', 'z', 'x', 'c',
    'v', 'b', 'n']

end UI

/-! ## Inputs of the worked examples -/

/-- An SMF text: a comment line, the four corners of a 6 by 8 rectangle in
the plane `z = 0`, and the two triangles that cut it along a diagonal. -/
def rectangleText : List Char :=
  ("# rectangle\nv 0 0 0\nv 6 0 0\nv 6 8 0\nv 0 8 0\nf 1 2 3\nf 1 3 4\n").toList

/-- The mesh that `loadSMF` builds from `rectangleText`. -/
def rectangleMesh {K : Type} [LinearOrderedField K] : Mesh K :=
  ⟨[⟨⟨0, 0, 0⟩, ⟨0, 0, 1⟩⟩, ⟨⟨6, 0, 0⟩, ⟨0, 0, 1⟩⟩, ⟨⟨6, 8, 0⟩, ⟨0, 0, 1⟩⟩,
     ⟨⟨0, 8, 0⟩, ⟨0, 0, 1⟩⟩],
   [⟨0, 1, 2, ⟨0, 0, 1⟩⟩, ⟨0, 2, 3, ⟨0, 0, 1⟩⟩], ⟨3, 4, 0⟩, 1 / 5⟩

/-- A scene in which only the specular term of light 0 is lit: white specular
material of shininess 2, light 0 one unit above the shaded point. -/
def glossScene {K : Type} [LinearOrderedField K] : Uniforms K :=
  { modelViewMatrix := 1
    projectionMatrix := 1
    normalMatrix := 1
    material_ambient := ⟨0, 0, 0, 0⟩
    material_diffuse := ⟨0, 0, 0, 0⟩
    material_specular := ⟨1, 1, 1, 1⟩
    material_shininess := 2
    light0_pos_eye := ⟨-24, 0, -6⟩
    light0_ambient := ⟨0, 0, 0, 0⟩
    light0_diffuse := ⟨0, 0, 0, 0⟩
    light0_specular := ⟨1, 1, 1, 1⟩
    light1_pos_eye := ⟨-24, 0, -6⟩
    light1_ambient := ⟨0, 0, 0, 0⟩
    light1_diffuse := ⟨0, 0, 0, 0⟩
    light1_specular := ⟨0, 0, 0, 0⟩ }

/-! # Theorems -/

/-! ## The loader -/

section LoaderLemmas

variable {K : Type} [LinearOrderedField K]

theorem at?_append {α : Type} (l l2 : List α) (i : Int) (p : α) (h : at? l i = some p) :
    at? (l ++ l2) i = some p := by
  unfold at? at h ⊢
  split at h
  · rename_i h0
    rw [if_pos h0]
    have hlt : i.toNat < l.length := by
      by_contra hc
      rw [List.getElem?_eq_none (by omega)] at h
      exact Option.noConfusion h
    rw [List.getElem?_append_left hlt]
    exact h
  · exact Option.noConfusion h

theorem at?_inRange {α : Type} (l : List α) (a : Int) (h : inRange l.length a = true) :
    ∃ p, at? l (a - 1) = some p := by
  unfold inRange at h
  simp only [Bool.and_eq_true, decide_eq_true_eq] at h
  unfold at?
  rw [if_pos (by omega)]
  have hlt : (a - 1).toNat < l.length := by omega
  exact ⟨l[(a - 1).toNat], List.getElem?_eq_getElem hlt⟩

theorem HasFaceNormal.append {sqrtf : K → K} {P : List (Vec3 K)} {t : Tri K}
    (h : HasFaceNormal sqrtf P t) (Q : List (Vec3 K)) : HasFaceNormal sqrtf (P ++ Q) t := by
  obtain ⟨pa, pb, pc, ha, hb, hc, hn⟩ := h
  exact ⟨pa, pb, pc, at?_append _ _ _ _ ha, at?_append _ _ _ _ hb, at?_append _ _ _ _ hc, hn⟩

/-- The loop body, read through the kind of the line. -/
theorem processLine_eq (rdF : Reader K) (rdI : Reader Int) (sqrtf : K → K)
    (st : ParseState K) (line : List Char) :
    processLine rdF rdI sqrtf st line =
      match lineKind rdF rdI line with
      | .other => some st
      | .malformed => none
      | .vertex p => some { st with pts := st.pts ++ [p] }
      | .face a b c =>
        match at? st.pts (b - 1), at? st.pts (a - 1), at? st.pts (c - 1) with
        | some pb, some pa, some pc =>
          some { st with triangles := st.triangles ++
            [⟨a - 1, b - 1, c - 1, normalize sqrtf (cross (pb.sub pa) (pc.sub pa))⟩] }
        | _, _, _ => none := by
  unfold processLine lineKind read3
  cases hc : readChar line with
  | none => rfl
  | some cr =>
    obtain ⟨c, r0⟩ := cr
    by_cases hv : c = 'v'
    · simp only [hv, if_true]
      cases h1 : rdF r0 with
      | none => rfl
      | some x1 =>
        cases h2 : rdF x1.2 with
        | none => simp [h2]
        | some x2 =>
          cases h3 : rdF x2.2 with
          | none => simp [h2, h3]
          | some x3 => simp [h2, h3]
    · by_cases hf : c = 'f'
      · simp only [hf, if_true]
        cases h1 : rdI r0 with
        | none => simp
        | some x1 =>
          cases h2 : rdI x1.2 with
          | none => simp [h2]
          | some x2 =>
            cases h3 : rdI x2.2 with
            | none => simp [h2, h3]
            | some x3 => simp [h2, h3]
      · simp [hv, hf]

theorem readLines_spec (rdF : Reader K) (rdI : Reader Int) (sqrtf : K → K) :
    ∀ (lines : List (List Char)) (st : ParseState K),
      facesOrdered rdF rdI st.pts.length lines = true →
      ∃ st1, readLines rdF rdI sqrtf st lines = some st1 ∧
        st1.pts = st.pts ++ vLines rdF rdI lines ∧
        st1.triangles.map Tri.corners =
          st.triangles.map Tri.corners ++ (fLines rdF rdI lines).map zeroBased ∧
        ∀ t ∈ st1.triangles, t ∈ st.triangles ∨ HasFaceNormal sqrtf st1.pts t := by
  intro lines
  induction lines with
  | nil =>
    intro st _
    exact ⟨st, rfl, by simp [vLines], by simp [fLines], fun t ht => Or.inl ht⟩
  | cons l ls ih =>
    intro st h
    unfold facesOrdered at h
    unfold readLines
    rw [List.foldlM_cons, processLine_eq]
    cases hk : lineKind rdF rdI l with
    | other =>
      rw [hk] at h
      obtain ⟨st1, h1, h2, h3, h4⟩ := ih st h
      refine ⟨st1, ?_, ?_, ?_, h4⟩
      · simpa [readLines] using h1
      · simpa [vLines, hk] using h2
      · simpa [fLines, hk] using h3
    | malformed =>
      rw [hk] at h
      exact absurd h (by simp)
    | vertex p =>
      rw [hk] at h
      have h0 : facesOrdered rdF rdI
          (({ st with pts := st.pts ++ [p] } : ParseState K).pts.length) ls = true := by
        simpa using h
      obtain ⟨st1, h1, h2, h3, h4⟩ := ih _ h0
      refine ⟨st1, ?_, ?_, ?_, ?_⟩
      · simpa [readLines] using h1
      · simpa [vLines, hk] using h2
      · simpa [fLines, hk] using h3
      · intro t ht
        simpa using h4 t ht
    | face a b c =>
      rw [hk] at h
      simp only [Bool.and_eq_true] at h
      obtain ⟨⟨⟨ha, hb⟩, hc⟩, hrest⟩ := h
      obtain ⟨pa, hpa⟩ := at?_inRange st.pts a ha
      obtain ⟨pb, hpb⟩ := at?_inRange st.pts b hb
      obtain ⟨pc, hpc⟩ := at?_inRange st.pts c hc
      obtain ⟨st1, h1, h2, h3, h4⟩ := ih
        { st with triangles := st.triangles ++
            [⟨a - 1, b - 1, c - 1, normalize sqrtf (cross (pb.sub pa) (pc.sub pa))⟩] } hrest
      refine ⟨st1, ?_, ?_, ?_, ?_⟩
      · simpa [readLines, hpa, hpb, hpc] using h1
      · simpa [vLines, hk] using h2
      · simpa [fLines, hk, Tri.corners, zeroBased] using h3
      · intro t ht
        rcases h4 t ht with h5 | h5
        · simp only [List.mem_append, List.mem_singleton] at h5
          rcases h5 with h5 | h5
          · exact Or.inl h5
          · right
            rw [h2]
            apply HasFaceNormal.append
            rw [h5]
            exact ⟨pa, pb, pc, hpa, hpb, hpc, rfl⟩
        · exact Or.inr h5

theorem Vec3.add_zero (a : Vec3 K) : a.add Vec3.zero = a := by
  cases a; simp [Vec3.add, Vec3.zero]

theorem Vec3.zero_add (a : Vec3 K) : Vec3.zero.add a = a := by
  cases a; simp [Vec3.add, Vec3.zero]

theorem Vec3.add_add (a b c : Vec3 K) : (a.add b).add c = a.add (b.add c) := by
  simp [Vec3.add, add_assoc]

theorem at?_bounds {α : Type} (l : List α) (j : Int) :
    (∃ v, at? l j = some v) ↔ 0 ≤ j ∧ j < (l.length : Int) := by
  unfold at?
  constructor
  · rintro ⟨v, h⟩
    split at h
    · rename_i h0
      refine ⟨h0, ?_⟩
      by_contra hc
      rw [List.getElem?_eq_none (by omega)] at h
      exact Option.noConfusion h
    · exact Option.noConfusion h
  · rintro ⟨h0, h1⟩
    rw [if_pos h0]
    have hlt : j.toNat < l.length := by omega
    exact ⟨l[j.toNat], List.getElem?_eq_getElem hlt⟩

theorem addNormal_spec (vs : List (Vertex K)) (j : Int) (fn : Vec3 K)
    (hj : 0 ≤ j ∧ j < (vs.length : Int)) :
    ∃ vs1, addNormal vs j fn = some vs1 ∧ vs1.map (fun v => v.p) = vs.map (fun v => v.p) ∧
      ∀ (i : Nat) (w : Vertex K), vs[i]? = some w →
        ∃ w1, vs1[i]? = some w1 ∧
          w1.n = w.n.add (if j = (i : Int) then fn else Vec3.zero) := by
  obtain ⟨v, hv⟩ := (at?_bounds vs j).mpr hj
  have hv2 : vs[j.toNat]? = some v := by
    unfold at? at hv
    rwa [if_pos hj.1] at hv
  refine ⟨vs.set j.toNat { v with n := v.n.add fn }, ?_, ?_, ?_⟩
  · simp [addNormal, hv]
  · apply List.ext_getElem?
    intro k
    rw [List.map_set, List.getElem?_set]
    split
    · rename_i hk
      subst hk
      have hlt : j.toNat < vs.length := by omega
      have hv3 : vs[j.toNat] = v := by
        rw [List.getElem?_eq_getElem hlt] at hv2
        exact Option.some.inj hv2
      simp [hlt, hv3]
    · rfl
  · intro i w hw
    rw [List.getElem?_set]
    by_cases hij : j.toNat = i
    · have hji : j = (i : Int) := by omega
      subst hij
      have hlt : j.toNat < vs.length := by omega
      rw [hv2] at hw
      cases hw
      rw [if_pos hji]
      simp [hlt]
    · have hji : ¬ j = (i : Int) := by omega
      simp [hij, hji, hw, Vec3.add_zero]

omit [LinearOrderedField K] in
theorem length_of_map_p {vs1 vs : List (Vertex K)}
    (h : vs1.map (fun v => v.p) = vs.map (fun v => v.p)) : vs1.length = vs.length := by
  simpa using congrArg List.length h

theorem accumulateTri_spec (vs : List (Vertex K)) (t : Tri K) (hb : InBounds vs.length t) :
    ∃ vs3, accumulateTri vs t = some vs3 ∧
      vs3.map (fun v => v.p) = vs.map (fun v => v.p) ∧
      ∀ (i : Nat) (w : Vertex K), vs[i]? = some w →
        ∃ w3, vs3[i]? = some w3 ∧ w3.n = w.n.add (contrib i t) := by
  obtain ⟨ha, hb, hc⟩ := hb
  obtain ⟨vs1, e1, p1, n1⟩ := addNormal_spec vs t.a t.fn ha
  obtain ⟨vs2, e2, p2, n2⟩ := addNormal_spec vs1 t.b t.fn (by rw [length_of_map_p p1]; exact hb)
  obtain ⟨vs3, e3, p3, n3⟩ := addNormal_spec vs2 t.c t.fn
    (by rw [length_of_map_p p2, length_of_map_p p1]; exact hc)
  refine ⟨vs3, ?_, ?_, ?_⟩
  · simp [accumulateTri, e1, e2, e3]
  · rw [p3, p2, p1]
  · intro i w hw
    obtain ⟨w1, hw1, q1⟩ := n1 i w hw
    obtain ⟨w2, hw2, q2⟩ := n2 i w1 hw1
    obtain ⟨w3, hw3, q3⟩ := n3 i w2 hw2
    refine ⟨w3, hw3, ?_⟩
    rw [q3, q2, q1, contrib, Vec3.add_add, Vec3.add_add, Vec3.add_add]

theorem accumulateNormals_spec :
    ∀ (tris : List (Tri K)) (vs : List (Vertex K)),
      (∀ t ∈ tris, InBounds vs.length t) →
      ∃ vs1, accumulateNormals vs tris = some vs1 ∧
        vs1.map (fun v => v.p) = vs.map (fun v => v.p) ∧
        ∀ (i : Nat) (w : Vertex K), vs[i]? = some w →
          ∃ w1, vs1[i]? = some w1 ∧ w1.n = w.n.add (vsum (tris.map (contrib i))) := by
  intro tris
  induction tris with
  | nil =>
    intro vs _
    refine ⟨vs, rfl, rfl, ?_⟩
    intro i w hw
    exact ⟨w, hw, by simp [vsum, Vec3.add_zero]⟩
  | cons t ts ih =>
    intro vs hb
    obtain ⟨vs3, e3, p3, n3⟩ := accumulateTri_spec vs t (hb t (List.mem_cons_self _ _))
    have hb1 : ∀ u ∈ ts, InBounds vs3.length u := by
      intro u hu
      rw [length_of_map_p p3]
      exact hb u (List.mem_cons_of_mem _ hu)
    obtain ⟨vs1, e1, p1, n1⟩ := ih vs3 hb1
    refine ⟨vs1, ?_, ?_, ?_⟩
    · unfold accumulateNormals at e1 ⊢
      rw [List.foldlM_cons, e3]
      exact e1
    · rw [p1, p3]
    · intro i w hw
      obtain ⟨w3, hw3, q3⟩ := n3 i w hw
      obtain ⟨w1, hw1, q1⟩ := n1 i w3 hw3
      refine ⟨w1, hw1, ?_⟩
      rw [q1, q3, Vec3.add_add]
      simp [vsum]

theorem normalize_zero (sqrtf : K → K) : normalize sqrtf (Vec3.zero : Vec3 K) = Vec3.zero := by
  unfold normalize Vec3.zero
  simp

theorem cross_self (u : Vec3 K) : cross u u = Vec3.zero := by
  unfold cross Vec3.zero
  congr 1 <;> ring

theorem cross_zero_left (v : Vec3 K) : cross (Vec3.zero : Vec3 K) v = Vec3.zero := by
  unfold cross Vec3.zero
  simp

theorem cross_zero_right (u : Vec3 K) : cross u (Vec3.zero : Vec3 K) = Vec3.zero := by
  unfold cross Vec3.zero
  simp

theorem Vec3.sub_self (a : Vec3 K) : a.sub a = Vec3.zero := by
  simp [Vec3.sub, Vec3.zero]

/-- A triangle that names one vertex at two corners has the zero face normal. -/
theorem HasFaceNormal.degenerate {sqrtf : K → K} {P : List (Vec3 K)} {t : Tri K}
    (h : HasFaceNormal sqrtf P t) (hd : t.a = t.b ∨ t.a = t.c ∨ t.b = t.c) :
    t.fn = Vec3.zero := by
  obtain ⟨pa, pb, pc, ha, hb, hc, hn⟩ := h
  rw [hn]
  rcases hd with hd | hd | hd
  · rw [hd, hb] at ha
    cases ha
    rw [Vec3.sub_self, cross_zero_left, normalize_zero]
  · rw [hd, hc] at ha
    cases ha
    rw [Vec3.sub_self, cross_zero_right, normalize_zero]
  · rw [hd, hc] at hb
    cases hb
    rw [cross_self, normalize_zero]

theorem contrib_eq {sqrtf : K → K} {P : List (Vec3 K)} {t : Tri K}
    (h : HasFaceNormal sqrtf P t) (i : Nat) :
    contrib i t = if incident i t = true then t.fn else Vec3.zero := by
  unfold contrib incident
  by_cases ha : t.a = (i : Int) <;> by_cases hb : t.b = (i : Int) <;>
    by_cases hc : t.c = (i : Int) <;>
    simp only [ha, hb, hc, if_true, if_false, decide_True, decide_False, Bool.or_true,
      Bool.or_false, Bool.true_or, Bool.or_self, Vec3.add_zero, Vec3.zero_add]
  · rw [h.degenerate (Or.inl (ha.trans hb.symm))]; simp [Vec3.add_zero]
  · rw [h.degenerate (Or.inl (ha.trans hb.symm))]; simp [Vec3.add_zero]
  · rw [h.degenerate (Or.inr (Or.inl (ha.trans hc.symm)))]; simp [Vec3.add_zero]
  · rw [h.degenerate (Or.inr (Or.inr (hb.trans hc.symm)))]; simp [Vec3.add_zero]
  all_goals simp

theorem vsum_contrib {sqrtf : K → K} {P : List (Vec3 K)} (i : Nat) :
    ∀ (tris : List (Tri K)), (∀ t ∈ tris, HasFaceNormal sqrtf P t) →
      vsum (tris.map (contrib i)) = vsum ((tris.filter (incident i)).map fun t => t.fn) := by
  intro tris
  induction tris with
  | nil => intro _; rfl
  | cons t ts ih =>
    intro h
    have h1 := ih (fun u hu => h u (List.mem_cons_of_mem _ hu))
    have h2 := contrib_eq (h t (List.mem_cons_self _ _)) i
    by_cases hi : incident i t = true
    · rw [if_pos hi] at h2
      simp only [List.map_cons, List.filter_cons, hi, if_true, vsum, List.foldr_cons] at h1 ⊢
      rw [h2, h1]
    · rw [if_neg hi] at h2
      simp only [List.map_cons, List.filter_cons, hi, if_false, vsum, List.foldr_cons] at h1 ⊢
      rw [h2, h1, Vec3.zero_add]
      simp

theorem HasFaceNormal.inBounds {sqrtf : K → K} {P : List (Vec3 K)} {t : Tri K}
    (h : HasFaceNormal sqrtf P t) : InBounds P.length t := by
  obtain ⟨pa, pb, pc, ha, hb, hc, _⟩ := h
  exact ⟨(at?_bounds P t.a).mp ⟨pa, ha⟩, (at?_bounds P t.b).mp ⟨pb, hb⟩,
    (at?_bounds P t.c).mp ⟨pc, hc⟩⟩

theorem finishLoad_spec (sqrtf : K → K) (st : ParseState K)
    (h : ∀ t ∈ st.triangles, HasFaceNormal sqrtf st.pts t) :
    ∃ m, finishLoad sqrtf st = some m ∧
      m.vertices.map (fun v => v.p) = st.pts ∧
      m.triangles = st.triangles ∧
      ∀ (i : Nat) (v : Vertex K), m.vertices[i]? = some v →
        v.n = normalize sqrtf
          (vsum ((st.triangles.filter (incident i)).map fun t => t.fn)) := by
  have hb : ∀ t ∈ st.triangles, InBounds (buildVertices st.pts).length t := by
    intro t ht
    have := (h t ht).inBounds
    simpa [buildVertices] using this
  obtain ⟨vs1, e1, p1, n1⟩ := accumulateNormals_spec st.triangles (buildVertices st.pts) hb
  refine ⟨⟨normalizeNormals sqrtf vs1, st.triangles, computeCentroid (normalizeNormals sqrtf vs1),
    scaleOf (computeMaxd sqrtf (normalizeNormals sqrtf vs1)
      (computeCentroid (normalizeNormals sqrtf vs1)))⟩, by simp only [finishLoad, e1], ?_, rfl, ?_⟩
  · simp only [normalizeNormals, List.map_map]
    have : ((fun v : Vertex K => v.p) ∘ fun v : Vertex K => { v with n := normalize sqrtf v.n })
        = fun v => v.p := rfl
    rw [this, p1]
    simp only [buildVertices, List.map_map]
    exact List.map_id _
  · intro i v hv
    simp only [normalizeNormals, List.getElem?_map, Option.map_eq_some'] at hv
    obtain ⟨w1, hw1, rfl⟩ := hv
    have hlen : i < vs1.length := by
      by_contra hc
      rw [List.getElem?_eq_none (by omega)] at hw1
      exact Option.noConfusion hw1
    have hlen2 : i < st.pts.length := by
      have := length_of_map_p p1
      simp only [buildVertices, List.length_map] at this
      omega
    have h0 : (buildVertices st.pts)[i]? = some ⟨st.pts[i], Vec3.zero⟩ := by
      simp [buildVertices, hlen2, Vec3.zero]
    obtain ⟨w2, hw2, q2⟩ := n1 i _ h0
    rw [hw1] at hw2
    cases hw2
    show normalize sqrtf w1.n = _
    rw [q2, Vec3.zero_add, vsum_contrib i st.triangles h]

theorem processLine_other (rdF : Reader K) (rdI : Reader Int) (sqrtf : K → K)
    (st : ParseState K) (line : List Char) (h : isVF line = false) :
    processLine rdF rdI sqrtf st line = some st := by
  unfold isVF at h
  unfold processLine
  cases hc : readChar line with
  | none => rfl
  | some cr =>
    obtain ⟨c, r⟩ := cr
    rw [hc] at h
    simp only [Bool.or_eq_false_iff, beq_eq_false_iff_ne, ne_eq] at h
    simp [h.1, h.2]

theorem readLines_filter (rdF : Reader K) (rdI : Reader Int) (sqrtf : K → K) :
    ∀ (lines : List (List Char)) (st : ParseState K),
      readLines rdF rdI sqrtf st (lines.filter isVF) = readLines rdF rdI sqrtf st lines := by
  intro lines
  induction lines with
  | nil => intro st; rfl
  | cons l ls ih =>
    intro st
    unfold readLines at ih ⊢
    by_cases hl : isVF l = true
    · rw [List.filter_cons_of_pos hl, List.foldlM_cons, List.foldlM_cons]
      cases processLine rdF rdI sqrtf st l with
      | none => rfl
      | some st1 => exact ih st1
    · have hl2 : isVF l = false := by simpa using hl
      rw [List.filter_cons_of_neg hl, List.foldlM_cons, processLine_other _ _ _ _ _ hl2]
      exact ih st

/-- C1: on an SMF text whose face lines name only vertices declared on earlier
`v` lines, `loadSMF` started with an empty triangle list returns `true`; the
positions of the vertex list are the coordinates of the `v` lines in file
order; the triangle list has, in file order, the 0-based indices of the `f`
lines, each with the face normal `normalize(cross(p[b]-p[a], p[c]-p[a]))` over
these positions; and every text with the same `v` and `f` lines loads to the
same result, so the other lines contribute nothing. -/
theorem loadSMF_reads_vertices_and_faces (rdF : Reader K) (rdI : Reader Int) (sqrtf : K → K)
    (text : List Char) (g : Mesh K) (hg : g.triangles = [])
    (hwf : facesOrdered rdF rdI 0 (getlines text) = true) :
    ∃ m, loadSMF rdF rdI sqrtf (some text) g = some (true, m) ∧
      m.vertices.map (fun v => v.p) = vLines rdF rdI (getlines text) ∧
      m.triangles.map Tri.corners = (fLines rdF rdI (getlines text)).map zeroBased ∧
      (∀ t ∈ m.triangles, HasFaceNormal sqrtf (m.vertices.map fun v => v.p) t) ∧
      ∀ text2 : List Char, (getlines text2).filter isVF = (getlines text).filter isVF →
        loadSMF rdF rdI sqrtf (some text2) g = loadSMF rdF rdI sqrtf (some text) g := by
  obtain ⟨st, e1, p1, c1, n1⟩ :=
    readLines_spec rdF rdI sqrtf (getlines text) ⟨[], g.triangles⟩ hwf
  have hn : ∀ t ∈ st.triangles, HasFaceNormal sqrtf st.pts t := by
    intro t ht
    rcases n1 t ht with h | h
    · rw [hg] at h
      exact absurd h (List.not_mem_nil t)
    · exact h
  obtain ⟨m, e2, p2, t2, _⟩ := finishLoad_spec sqrtf st hn
  refine ⟨m, ?_, ?_, ?_, ?_, ?_⟩
  · simp only [loadSMF, e1, e2]
  · rw [p2, p1]
    rfl
  · rw [t2, c1, hg]
    rfl
  · rw [t2, p2]
    exact hn
  · intro text2 h2
    unfold loadSMF
    simp only
    rw [← readLines_filter rdF rdI sqrtf (getlines text2), h2, readLines_filter]

/-- C2: after `loadSMF` on a well-formed mesh (no malformed line, every face
index names an earlier vertex, triangle list initially empty) the normal
stored for vertex `i` is `normalize` of the sum of the face normals of the
triangles that have `i` as a corner, each such triangle taken once. -/
theorem loadSMF_vertex_normals (rdF : Reader K) (rdI : Reader Int) (sqrtf : K → K)
    (text : List Char) (g : Mesh K) (hg : g.triangles = [])
    (hwf : facesOrdered rdF rdI 0 (getlines text) = true) :
    ∃ m, loadSMF rdF rdI sqrtf (some text) g = some (true, m) ∧
      ∀ (i : Nat) (v : Vertex K), m.vertices[i]? = some v →
        v.n = normalize sqrtf
          (vsum ((m.triangles.filter (incident i)).map fun t => t.fn)) := by
  obtain ⟨st, e1, p1, c1, n1⟩ :=
    readLines_spec rdF rdI sqrtf (getlines text) ⟨[], g.triangles⟩ hwf
  have hn : ∀ t ∈ st.triangles, HasFaceNormal sqrtf st.pts t := by
    intro t ht
    rcases n1 t ht with h | h
    · rw [hg] at h
      exact absurd h (List.not_mem_nil t)
    · exact h
  obtain ⟨m, e2, p2, t2, n2⟩ := finishLoad_spec sqrtf st hn
  refine ⟨m, by simp only [loadSMF, e1, e2], ?_⟩
  rw [t2]
  exact n2

end LoaderLemmas

/-! ## Centroid and scale -/

section Bounding

variable {K : Type} [LinearOrderedField K]

theorem len_sub (sqrtf : K → K) (p c : Vec3 K) : len sqrtf (p.sub c) = distance sqrtf p c := by
  unfold len distance Vec3.sub
  congr 1
  ring

theorem foldl_add_p (vs : List (Vertex K)) :
    ∀ c : Vec3 K, vs.foldl (fun (c : Vec3 K) v => c.add v.p) c =
      ⟨c.x + (vs.map fun v => v.p.x).sum, c.y + (vs.map fun v => v.p.y).sum,
        c.z + (vs.map fun v => v.p.z).sum⟩ := by
  induction vs with
  | nil => intro c; simp
  | cons v vs ih =>
    intro c
    rw [List.foldl_cons, ih]
    simp [Vec3.add, add_assoc]

theorem computeCentroid_eq_mean (vs : List (Vertex K)) :
    computeCentroid vs = mean (vs.map fun v => v.p) := by
  unfold computeCentroid mean
  rw [foldl_add_p]
  simp [Vec3.scale, List.map_map, Function.comp_def, div_eq_mul_inv]

theorem foldl_max_spec {α : Type} (f : α → K) (vs : List α) :
    ∀ a : K, a ≤ vs.foldl (fun m v => max m (f v)) a ∧
      (∀ v ∈ vs, f v ≤ vs.foldl (fun m v => max m (f v)) a) ∧
      (vs.foldl (fun m v => max m (f v)) a = a ∨
        ∃ v ∈ vs, f v = vs.foldl (fun m v => max m (f v)) a) := by
  induction vs with
  | nil => intro a; simp
  | cons w ws ih =>
    intro a
    obtain ⟨h1, h2, h3⟩ := ih (max a (f w))
    rw [List.foldl_cons]
    refine ⟨le_trans (le_max_left _ _) h1, ?_, ?_⟩
    · intro v hv
      rcases List.mem_cons.mp hv with rfl | hv
      · exact le_trans (le_max_right _ _) h1
      · exact h2 v hv
    · rcases h3 with h3 | ⟨v, hv, h3⟩
      · rcases le_total a (f w) with hle | hle
        · right
          refine ⟨w, List.mem_cons_self _ _, ?_⟩
          rw [h3, max_eq_right hle]
        · left
          rw [h3, max_eq_left hle]
      · right
        exact ⟨v, List.mem_cons_of_mem _ hv, h3⟩

theorem finishLoad_fields (sqrtf : K → K) (st : ParseState K) (m : Mesh K)
    (h : finishLoad sqrtf st = some m) :
    m.centroid = computeCentroid m.vertices ∧
      m.modelScale = scaleOf (computeMaxd sqrtf m.vertices m.centroid) := by
  unfold finishLoad at h
  cases ha : accumulateNormals (buildVertices st.pts) st.triangles with
  | none => rw [ha] at h; exact Option.noConfusion h
  | some vs =>
    rw [ha] at h
    simp only [Option.some.injEq] at h
    subst h
    exact ⟨rfl, rfl⟩

theorem loadSMF_fields (rdF : Reader K) (rdI : Reader Int) (sqrtf : K → K)
    (text : List Char) (g m : Mesh K)
    (h : loadSMF rdF rdI sqrtf (some text) g = some (true, m)) :
    m.centroid = computeCentroid m.vertices ∧
      m.modelScale = scaleOf (computeMaxd sqrtf m.vertices m.centroid) := by
  unfold loadSMF at h
  simp only at h
  cases hr : readLines rdF rdI sqrtf ⟨[], g.triangles⟩ (getlines text) with
  | none => rw [hr] at h; exact Option.noConfusion h
  | some st =>
    rw [hr] at h
    simp only at h
    cases hf : finishLoad sqrtf st with
    | none => rw [hf] at h; exact Option.noConfusion h
    | some m1 =>
      rw [hf] at h
      simp only [Option.some.injEq, Prod.mk.injEq, true_and] at h
      subst h
      exact finishLoad_fields sqrtf st m1 hf

/-- C4: for a loaded mesh with at least one vertex, `centroid` is the mean of
the vertex positions and `modelScale` is `1/maxd`, `maxd` being the largest
distance from the centroid to a vertex, replaced by `1` when below `1e-6`;
hence `modelScale > 0`, `modelScale * |p - centroid| ≤ 1` for every vertex,
with equality for some vertex when `maxd ≥ 1e-6`. -/
theorem loadSMF_centroid_and_scale (rdF : Reader ℝ) (rdI : Reader Int)
    (text : List Char) (g m : Mesh ℝ)
    (h : loadSMF rdF rdI Real.sqrt (some text) g = some (true, m))
    (hne : m.vertices ≠ []) :
    m.centroid = mean (m.vertices.map fun v => v.p) ∧
    ∃ maxd : ℝ,
      (∀ v ∈ m.vertices, distance Real.sqrt v.p m.centroid ≤ maxd) ∧
      (∃ v ∈ m.vertices, distance Real.sqrt v.p m.centroid = maxd) ∧
      m.modelScale = 1 / (if maxd < 1 / 1000000 then 1 else maxd) ∧
      0 < m.modelScale ∧
      (∀ v ∈ m.vertices, m.modelScale * distance Real.sqrt v.p m.centroid ≤ 1) ∧
      (1 / 1000000 ≤ maxd →
        ∃ v ∈ m.vertices, m.modelScale * distance Real.sqrt v.p m.centroid = 1) := by
  obtain ⟨hc, hs⟩ := loadSMF_fields rdF rdI Real.sqrt text g m h
  refine ⟨by rw [hc, computeCentroid_eq_mean], ?_⟩
  obtain ⟨h1, h2, h3⟩ :=
    foldl_max_spec (fun v : Vertex ℝ => len Real.sqrt (v.p.sub m.centroid)) m.vertices 0
  have hd : ∀ v : Vertex ℝ, len Real.sqrt (v.p.sub m.centroid)
      = distance Real.sqrt v.p m.centroid := fun v => len_sub _ _ _
  simp only [hd] at h1 h2 h3
  have hM : computeMaxd Real.sqrt m.vertices m.centroid
      = m.vertices.foldl (fun mx v => max mx (distance Real.sqrt v.p m.centroid)) 0 := by
    unfold computeMaxd
    simp only [hd]
  rw [hM] at hs
  generalize m.vertices.foldl (fun mx v => max mx (distance Real.sqrt v.p m.centroid)) 0
    = maxd at h1 h2 h3 hs
  have hatt : ∃ v ∈ m.vertices, distance Real.sqrt v.p m.centroid = maxd := by
    rcases h3 with h3 | h3
    · obtain ⟨v, vs, hv⟩ := List.exists_cons_of_ne_nil hne
      refine ⟨v, by rw [hv]; exact List.mem_cons_self _ _, ?_⟩
      have hle := h2 v (by rw [hv]; exact List.mem_cons_self _ _)
      have hge : 0 ≤ distance Real.sqrt v.p m.centroid := Real.sqrt_nonneg _
      rw [h3] at hle ⊢
      exact le_antisymm hle hge
    · exact h3
  have hscale : m.modelScale = 1 / (if maxd < 1 / 1000000 then 1 else maxd) := by
    rw [hs]; rfl
  refine ⟨maxd, h2, hatt, hscale, ?_, ?_, ?_⟩
  · rw [hscale]
    split
    · norm_num
    · rename_i hlt
      have : (0 : ℝ) < maxd := lt_of_lt_of_le (by norm_num) (not_lt.mp hlt)
      positivity
  · intro v hv
    rw [hscale]
    have hle := h2 v hv
    split
    · rename_i hlt
      have : distance Real.sqrt v.p m.centroid < 1 / 1000000 := lt_of_le_of_lt hle hlt
      norm_num at this ⊢
      linarith
    · rename_i hlt
      have hpos : (0 : ℝ) < maxd := lt_of_lt_of_le (by norm_num) (not_lt.mp hlt)
      rw [one_div, inv_mul_le_iff₀ hpos]
      simpa using hle
  · intro hge
    obtain ⟨v, hv, he⟩ := hatt
    refine ⟨v, hv, ?_⟩
    rw [hscale, he, if_neg (not_lt.mpr hge)]
    have hpos : (0 : ℝ) < maxd := lt_of_lt_of_le (by norm_num) hge
    field_simp

end Bounding

/-! ## The loader on the rectangle mesh -/

theorem readLines_rectangle :
    readLines (K := ℝ) sampleReadFloat sampleReadInt Real.sqrt ⟨[], []⟩ (getlines rectangleText)
      = some ⟨[⟨((0 : ℤ) : ℝ), ((0 : ℤ) : ℝ), ((0 : ℤ) : ℝ)⟩,
               ⟨((6 : ℤ) : ℝ), ((0 : ℤ) : ℝ), ((0 : ℤ) : ℝ)⟩,
               ⟨((6 : ℤ) : ℝ), ((8 : ℤ) : ℝ), ((0 : ℤ) : ℝ)⟩,
               ⟨((0 : ℤ) : ℝ), ((8 : ℤ) : ℝ), ((0 : ℤ) : ℝ)⟩],
              [⟨0, 1, 2, normalize Real.sqrt (cross
                  ((⟨((6 : ℤ) : ℝ), ((0 : ℤ) : ℝ), ((0 : ℤ) : ℝ)⟩ : Vec3 ℝ).sub
                    ⟨((0 : ℤ) : ℝ), ((0 : ℤ) : ℝ), ((0 : ℤ) : ℝ)⟩)
                  ((⟨((6 : ℤ) : ℝ), ((8 : ℤ) : ℝ), ((0 : ℤ) : ℝ)⟩ : Vec3 ℝ).sub
                    ⟨((0 : ℤ) : ℝ), ((0 : ℤ) : ℝ), ((0 : ℤ) : ℝ)⟩))⟩,
               ⟨0, 2, 3, normalize Real.sqrt (cross
                  ((⟨((6 : ℤ) : ℝ), ((8 : ℤ) : ℝ), ((0 : ℤ) : ℝ)⟩ : Vec3 ℝ).sub
                    ⟨((0 : ℤ) : ℝ), ((0 : ℤ) : ℝ), ((0 : ℤ) : ℝ)⟩)
                  ((⟨((0 : ℤ) : ℝ), ((8 : ℤ) : ℝ), ((0 : ℤ) : ℝ)⟩ : Vec3 ℝ).sub
                    ⟨((0 : ℤ) : ℝ), ((0 : ℤ) : ℝ), ((0 : ℤ) : ℝ)⟩))⟩]⟩ := by
  rfl

theorem normalize_z (c : ℝ) (hc : 1 / 1000000 ≤ c) :
    normalize Real.sqrt (⟨0, 0, c⟩ : Vec3 ℝ) = ⟨0, 0, 1⟩ := by
  have hpos : 0 < c := lt_of_lt_of_le (by norm_num) hc
  have hl : len Real.sqrt (⟨0, 0, c⟩ : Vec3 ℝ) = c := by
    simp [len, Real.sqrt_mul_self hpos.le]
  unfold normalize
  simp only [hl]
  rw [if_neg (not_lt.mpr hc)]
  simp [hpos.ne']

theorem len_rect (a b : ℝ) (c : ℝ) (hc : 0 ≤ c) (h : a * a + b * b = c * c) :
    len Real.sqrt (⟨a, b, 0⟩ : Vec3 ℝ) = c := by
  unfold len
  simp only [mul_zero, add_zero]
  rw [h, Real.sqrt_mul_self hc]

theorem readLines_rectangle_eval :
    readLines (K := ℝ) sampleReadFloat sampleReadInt Real.sqrt ⟨[], []⟩ (getlines rectangleText)
      = some ⟨[⟨0, 0, 0⟩, ⟨6, 0, 0⟩, ⟨6, 8, 0⟩, ⟨0, 8, 0⟩],
              [⟨0, 1, 2, ⟨0, 0, 1⟩⟩, ⟨0, 2, 3, ⟨0, 0, 1⟩⟩]⟩ := by
  rw [readLines_rectangle]
  have h1 : cross ((⟨((6 : ℤ) : ℝ), ((0 : ℤ) : ℝ), ((0 : ℤ) : ℝ)⟩ : Vec3 ℝ).sub
        ⟨((0 : ℤ) : ℝ), ((0 : ℤ) : ℝ), ((0 : ℤ) : ℝ)⟩)
      ((⟨((6 : ℤ) : ℝ), ((8 : ℤ) : ℝ), ((0 : ℤ) : ℝ)⟩ : Vec3 ℝ).sub
        ⟨((0 : ℤ) : ℝ), ((0 : ℤ) : ℝ), ((0 : ℤ) : ℝ)⟩) = ⟨0, 0, 48⟩ := by
    simp only [cross, Vec3.sub, Vec3.mk.injEq]
    norm_num
  have h2 : cross ((⟨((6 : ℤ) : ℝ), ((8 : ℤ) : ℝ), ((0 : ℤ) : ℝ)⟩ : Vec3 ℝ).sub
        ⟨((0 : ℤ) : ℝ), ((0 : ℤ) : ℝ), ((0 : ℤ) : ℝ)⟩)
      ((⟨((0 : ℤ) : ℝ), ((8 : ℤ) : ℝ), ((0 : ℤ) : ℝ)⟩ : Vec3 ℝ).sub
        ⟨((0 : ℤ) : ℝ), ((0 : ℤ) : ℝ), ((0 : ℤ) : ℝ)⟩) = ⟨0, 0, 48⟩ := by
    simp only [cross, Vec3.sub, Vec3.mk.injEq]
    norm_num
  rw [h1, h2, normalize_z 48 (by norm_num)]
  simp only [Int.cast_ofNat, Int.cast_zero]

theorem accumulateNormals_rectangle :
    accumulateNormals (K := ℝ) (buildVertices [⟨0, 0, 0⟩, ⟨6, 0, 0⟩, ⟨6, 8, 0⟩, ⟨0, 8, 0⟩])
      [⟨0, 1, 2, ⟨0, 0, 1⟩⟩, ⟨0, 2, 3, ⟨0, 0, 1⟩⟩]
      = some [⟨⟨0, 0, 0⟩, ⟨0, 0, 2⟩⟩, ⟨⟨6, 0, 0⟩, ⟨0, 0, 1⟩⟩, ⟨⟨6, 8, 0⟩, ⟨0, 0, 2⟩⟩,
          ⟨⟨0, 8, 0⟩, ⟨0, 0, 1⟩⟩] := by
  simp [accumulateNormals, accumulateTri, addNormal, at?, buildVertices, Vec3.add]
  norm_num

theorem loadSMF_rectangle :
    loadSMF (K := ℝ) sampleReadFloat sampleReadInt Real.sqrt (some rectangleText) initialMesh
      = some (true, rectangleMesh) := by
  unfold loadSMF
  simp only [initialMesh]
  rw [readLines_rectangle_eval]
  simp only [finishLoad]
  rw [accumulateNormals_rectangle]
  simp only [normalizeNormals, List.map_cons, List.map_nil, normalize_z 2 (by norm_num),
    normalize_z 1 (by norm_num)]
  have hc : computeCentroid (K := ℝ) [⟨⟨0, 0, 0⟩, ⟨0, 0, 1⟩⟩, ⟨⟨6, 0, 0⟩, ⟨0, 0, 1⟩⟩,
      ⟨⟨6, 8, 0⟩, ⟨0, 0, 1⟩⟩, ⟨⟨0, 8, 0⟩, ⟨0, 0, 1⟩⟩] = ⟨3, 4, 0⟩ := by
    simp only [computeCentroid, List.foldl_cons, List.foldl_nil, Vec3.add, Vec3.scale,
      List.length_cons, List.length_nil, Vec3.mk.injEq]
    norm_num
  rw [hc]
  have hm : computeMaxd (K := ℝ) Real.sqrt [⟨⟨0, 0, 0⟩, ⟨0, 0, 1⟩⟩, ⟨⟨6, 0, 0⟩, ⟨0, 0, 1⟩⟩,
      ⟨⟨6, 8, 0⟩, ⟨0, 0, 1⟩⟩, ⟨⟨0, 8, 0⟩, ⟨0, 0, 1⟩⟩] ⟨3, 4, 0⟩ = 5 := by
    simp only [computeMaxd, List.foldl_cons, List.foldl_nil, Vec3.sub, sub_self]
    rw [len_rect (0 - 3) (0 - 4) 5 (by norm_num) (by norm_num),
      len_rect (6 - 3) (0 - 4) 5 (by norm_num) (by norm_num),
      len_rect (6 - 3) (8 - 4) 5 (by norm_num) (by norm_num),
      len_rect (0 - 3) (8 - 4) 5 (by norm_num) (by norm_num)]
    norm_num
  rw [hm]
  simp only [scaleOf, rectangleMesh]
  norm_num

/-! ## The model transform -/

section TransformLemmas

variable {K : Type} [LinearOrderedField K]

theorem drawMeshMatrix_apply (m : Mesh K) (v : Vec3 K) :
    transformPoint (drawMeshMatrix 1 m) v =
      ⟨m.modelScale * v.x - m.centroid.x, m.modelScale * v.y - m.centroid.y,
        m.modelScale * v.z - m.centroid.z⟩ := by
  simp [transformPoint, drawMeshMatrix, glTranslatef, glScalef, Matrix.mulVec, Matrix.mul_apply,
    Fin.sum_univ_four, Matrix.dotProduct, Matrix.vecHead, Matrix.vecTail]
  refine ⟨?_, ?_, ?_⟩ <;> ring

/-- Under any current matrix, `drawMesh` places a vertex `v` where the
current matrix places `modelScale * v - centroid`: the scaling acts first,
the translation after it. -/
theorem drawMeshMatrix_apply_cur (cur : Matrix (Fin 4) (Fin 4) K) (m : Mesh K) (v : Vec3 K) :
    transformPoint (drawMeshMatrix cur m) v =
      transformPoint cur
        ⟨m.modelScale * v.x - m.centroid.x, m.modelScale * v.y - m.centroid.y,
          m.modelScale * v.z - m.centroid.z⟩ := by
  simp only [transformPoint, drawMeshMatrix, glTranslatef, glScalef, Matrix.mulVec,
    Matrix.mul_apply, Fin.sum_univ_four, Matrix.dotProduct, Matrix.of_apply, Matrix.cons_val_zero,
    Matrix.cons_val_one, Matrix.head_cons, Matrix.cons_val_two, Matrix.tail_cons,
    Matrix.cons_val_three, Vec3.mk.injEq]
  refine ⟨?_, ?_, ?_⟩ <;> ring

end TransformLemmas

/-- C3 (evaluation at the rectangle mesh): `drawMesh` multiplies the
translation by `-centroid` and then the scaling by `modelScale` onto the
current matrix, so a vertex `v` is drawn where the current matrix places
`modelScale * v - centroid`.  From the identity matrix the centroid
`(3, 4, 0)` of the loaded rectangle is drawn at `(-12/5, -16/5, 0)`, not at
the origin, and the vertex `(0, 0, 0)` is drawn at `(-3, -4, 0)`, at distance
`5` from the origin. -/
theorem drawMesh_rectangle_not_centered :
    ∃ m : Mesh ℝ,
      loadSMF sampleReadFloat sampleReadInt Real.sqrt (some rectangleText) initialMesh
        = some (true, m) ∧
      m.centroid = ⟨3, 4, 0⟩ ∧ m.modelScale = 1 / 5 ∧
      (⟨⟨0, 0, 0⟩, ⟨0, 0, 1⟩⟩ : Vertex ℝ) ∈ m.vertices ∧
      (∀ (cur : Matrix (Fin 4) (Fin 4) ℝ) (v : Vec3 ℝ),
        transformPoint (drawMeshMatrix cur m) v
          = transformPoint cur ⟨1 / 5 * v.x - 3, 1 / 5 * v.y - 4, 1 / 5 * v.z - 0⟩) ∧
      transformPoint (drawMeshMatrix 1 m) m.centroid = ⟨-12 / 5, -16 / 5, 0⟩ ∧
      transformPoint (drawMeshMatrix 1 m) m.centroid ≠ ⟨0, 0, 0⟩ ∧
      transformPoint (drawMeshMatrix 1 m) ⟨0, 0, 0⟩ = ⟨-3, -4, 0⟩ ∧
      len Real.sqrt (transformPoint (drawMeshMatrix 1 m) ⟨0, 0, 0⟩) = 5 := by
  refine ⟨rectangleMesh, loadSMF_rectangle, rfl, rfl, ?_, ?_, ?_, ?_, ?_, ?_⟩
  · simp [rectangleMesh]
  · intro cur v
    exact drawMeshMatrix_apply_cur cur rectangleMesh v
  · rw [drawMeshMatrix_apply]
    simp only [rectangleMesh, Vec3.mk.injEq]
    norm_num
  · rw [drawMeshMatrix_apply]
    simp only [rectangleMesh, ne_eq, Vec3.mk.injEq]
    norm_num
  · rw [drawMeshMatrix_apply]
    simp only [rectangleMesh, Vec3.mk.injEq]
    norm_num
  · rw [drawMeshMatrix_apply]
    simp only [rectangleMesh]
    rw [show ((1 : ℝ) / 5 * 0 - 3) = -3 by norm_num, show ((1 : ℝ) / 5 * 0 - 4) = -4 by norm_num,
      show ((1 : ℝ) / 5 * 0 - 0) = 0 by norm_num]
    exact len_rect (-3) (-4) 5 (by norm_num) (by norm_num)

/-! ## The shaders -/

section ShaderTheorems

theorem GLSL.normalize_of_sq (v : Vec3 ℝ) (c : ℝ) (hc : 0 ≤ c) (h : GLSL.dot v v = c * c) :
    GLSL.normalize Real.sqrt v = ⟨v.x / c, v.y / c, v.z / c⟩ := by
  unfold GLSL.normalize
  simp only [h, Real.sqrt_mul_self hc]

theorem GLSL.normalize_unit (v : Vec3 ℝ) (h : GLSL.dot v v = 1) :
    GLSL.normalize Real.sqrt v = v := by
  rw [GLSL.normalize_of_sq v 1 (by norm_num) (by rw [h]; norm_num)]
  simp

/-- C5: for a unit normal `N` and an eye-space position `P`, the values that
`gouraud_vs` computes at a vertex, the colour that `gouraud_vs` computes and
`gouraud_fs` clamps equals the colour that `phong_fs` computes from
`vNormalEye = N` and `vPosEye = P`, for every material and pair of lights. -/
theorem gouraud_matches_phong (pow : ℝ → ℝ → ℝ) (u : Uniforms ℝ) (inPos inNorm N P : Vec3 ℝ)
    (hN : GLSL.normalize Real.sqrt (GLSL.mulVec3 u.normalMatrix inNorm) = N)
    (hP : GLSL.xyz (GLSL.mulVec4 u.modelViewMatrix (GLSL.vec4 inPos 1)) = P)
    (hunit : GLSL.dot N N = 1) :
    gouraud_fs (gouraud_vs Real.sqrt pow u inPos inNorm).vColor
      = phong_fs Real.sqrt pow u P N := by
  unfold gouraud_fs gouraud_vs phong_fs
  simp only [hN, hP, GLSL.normalize_unit N hunit]

end ShaderTheorems

section Refinement

variable {K : Type} [LinearOrderedField K]

theorem dot_reflect (N L V : Vec3 K) :
    GLSL.dot (GLSL.reflect (GLSL.neg L) N) V = phongBase N L V := by
  unfold phongBase GLSL.reflect GLSL.neg GLSL.dot
  ring

theorem specular_factor_eq (pow : K → K → K) (N L V : Vec3 K) (sh : K) :
    (if max (GLSL.dot N L) 0 > 0 then pow (max (GLSL.dot (GLSL.reflect (GLSL.neg L) N) V) 0) sh
      else 0)
      = if GLSL.dot N L ≤ 0 then 0 else pow (max (phongBase N L V) 0) sh := by
  rw [dot_reflect]
  by_cases h : GLSL.dot N L ≤ 0
  · rw [if_pos h, max_eq_right h, if_neg (lt_irrefl 0)]
  · rw [if_neg h, if_pos (lt_max_of_lt_left (not_le.mp h))]

theorem clamp_congr (a b : Vec4 K) (h : a = b) : GLSL.clamp a 0 1 = GLSL.clamp b 0 1 := by
  rw [h]

theorem phong_fs_eq_reflectance (sqrtf : K → K) (pow : K → K → K) (u : Uniforms K)
    (P N0 : Vec3 K) :
    phong_fs sqrtf pow u P N0
      = reflectance sqrtf pow phongBase u (GLSL.normalize sqrtf N0) P := by
  unfold phong_fs reflectance Uniforms.lights lightTerm
  simp only [specular_factor_eq, List.map_cons, List.map_nil, List.foldr_cons, List.foldr_nil]
  apply clamp_congr
  simp only [GLSL.add4, GLSL.mul4, GLSL.scale4, Vec4.mk.injEq]
  refine ⟨?_, ?_, ?_, ?_⟩ <;> ring

theorem gouraud_eq_reflectance (sqrtf : K → K) (pow : K → K → K) (u : Uniforms K)
    (inPos inNorm : Vec3 K) :
    gouraud_fs (gouraud_vs sqrtf pow u inPos inNorm).vColor
      = reflectance sqrtf pow phongBase u
          (GLSL.normalize sqrtf (GLSL.mulVec3 u.normalMatrix inNorm))
          (GLSL.xyz (GLSL.mulVec4 u.modelViewMatrix (GLSL.vec4 inPos 1))) := by
  unfold gouraud_fs gouraud_vs reflectance Uniforms.lights lightTerm
  simp only [specular_factor_eq, List.map_cons, List.map_nil, List.foldr_cons, List.foldr_nil]
  apply clamp_congr
  simp only [GLSL.add4, GLSL.mul4, GLSL.scale4, Vec4.mk.injEq]
  refine ⟨?_, ?_, ?_, ?_⟩ <;> ring

/-- C6 (amended): the reflectance formula of both lit paths is Phong: for each
light the specular factor is `max(dot(R, V), 0)` raised to the shininess, `R`
being the mirror image of the light direction `L` about `N`, and `0` when
`dot(N, L) ≤ 0`; the colour is the sum over both lights of
`ambient + diffuse * max(dot(N,L),0) + specular * factor`, clamped to
`[0, 1]`. -/
theorem lit_paths_are_phong (sqrtf : K → K) (pow : K → K → K) (u : Uniforms K)
    (inPos inNorm P N0 : Vec3 K) :
    phong_fs sqrtf pow u P N0
        = reflectance sqrtf pow phongBase u (GLSL.normalize sqrtf N0) P ∧
      gouraud_fs (gouraud_vs sqrtf pow u inPos inNorm).vColor
        = reflectance sqrtf pow phongBase u
            (GLSL.normalize sqrtf (GLSL.mulVec3 u.normalMatrix inNorm))
            (GLSL.xyz (GLSL.mulVec4 u.modelViewMatrix (GLSL.vec4 inPos 1))) :=
  ⟨phong_fs_eq_reflectance sqrtf pow u P N0, gouraud_eq_reflectance sqrtf pow u inPos inNorm⟩

end Refinement

theorem gloss_view : GLSL.normalize Real.sqrt (GLSL.neg (⟨-24, 0, -7⟩ : Vec3 ℝ))
    = ⟨24 / 25, 0, 7 / 25⟩ := by
  rw [GLSL.normalize_of_sq _ 25 (by norm_num) (by norm_num [GLSL.dot, GLSL.neg])]
  norm_num [GLSL.neg]

theorem gloss_light : GLSL.normalize Real.sqrt
    ((⟨-24, 0, -6⟩ : Vec3 ℝ).sub ⟨-24, 0, -7⟩) = ⟨0, 0, 1⟩ := by
  rw [GLSL.normalize_of_sq _ 1 (by norm_num) (by norm_num [GLSL.dot, Vec3.sub])]
  norm_num [Vec3.sub]

theorem gloss_normal : GLSL.normalize Real.sqrt (⟨0, 0, 1⟩ : Vec3 ℝ) = ⟨0, 0, 1⟩ :=
  GLSL.normalize_unit _ (by norm_num [GLSL.dot])

theorem gloss_half : GLSL.normalize Real.sqrt
    ((⟨0, 0, 1⟩ : Vec3 ℝ).add ⟨24 / 25, 0, 7 / 25⟩) = ⟨3 / 5, 0, 4 / 5⟩ := by
  rw [GLSL.normalize_of_sq _ (8 / 5) (by norm_num) (by norm_num [GLSL.dot, Vec3.add])]
  norm_num [Vec3.add]

theorem gloss_phong :
    (phong_fs Real.sqrt (fun x y => x ^ y) glossScene ⟨-24, 0, -7⟩ ⟨0, 0, 1⟩).x = 49 / 625 := by
  unfold phong_fs
  simp only [glossScene, gloss_view, gloss_light, gloss_normal]
  norm_num [GLSL.dot, GLSL.reflect, GLSL.neg, GLSL.add4, GLSL.mul4, GLSL.scale4, GLSL.clamp]

theorem gloss_blinn :
    (reflectance Real.sqrt (fun x y => x ^ y) (blinnBase Real.sqrt) glossScene
      ⟨0, 0, 1⟩ ⟨-24, 0, -7⟩).x = 16 / 25 := by
  unfold reflectance Uniforms.lights lightTerm blinnBase
  simp only [glossScene, gloss_view, gloss_light, gloss_half, List.map_cons, List.map_nil,
    List.foldr_cons, List.foldr_nil]
  norm_num [GLSL.dot, GLSL.add4, GLSL.mul4, GLSL.scale4, GLSL.clamp]

/-- C6 (counterexample): with the normal `(0,0,1)` at the point `(-24,0,-7)`,
light 0 straight above the point and shininess 2, `phong_fs` yields the
specular intensity `(7/25)^2 = 49/625`, the Blinn-Phong half-vector formula
yields `(4/5)^2 = 16/25`. -/
theorem phong_fs_is_not_blinn_phong :
    phong_fs Real.sqrt (fun x y => x ^ y) glossScene ⟨-24, 0, -7⟩ ⟨0, 0, 1⟩
      ≠ reflectance Real.sqrt (fun x y => x ^ y) (blinnBase Real.sqrt) glossScene
          ⟨0, 0, 1⟩ ⟨-24, 0, -7⟩ := by
  intro h
  have hx := congrArg Vec4.x h
  rw [gloss_phong, gloss_blinn] at hx
  norm_num at hx

/-- C5 (worked example): the normal `(0,0,1)` at the point `(-24,0,-7)` of the
gloss scene. -/
theorem gouraud_matches_phong_witness :
    GLSL.normalize Real.sqrt (GLSL.mulVec3 (glossScene (K := ℝ)).normalMatrix ⟨0, 0, 1⟩)
      = ⟨0, 0, 1⟩ ∧
    GLSL.xyz (GLSL.mulVec4 (glossScene (K := ℝ)).modelViewMatrix (GLSL.vec4 ⟨-24, 0, -7⟩ 1))
      = ⟨-24, 0, -7⟩ ∧
    GLSL.dot (⟨0, 0, 1⟩ : Vec3 ℝ) ⟨0, 0, 1⟩ = 1 ∧
    gouraud_fs (gouraud_vs Real.sqrt (fun x y => x ^ y) glossScene ⟨-24, 0, -7⟩ ⟨0, 0, 1⟩).vColor
      = phong_fs Real.sqrt (fun x y => x ^ y) glossScene ⟨-24, 0, -7⟩ ⟨0, 0, 1⟩ :=
  have hN : GLSL.normalize Real.sqrt
      (GLSL.mulVec3 (glossScene (K := ℝ)).normalMatrix ⟨0, 0, 1⟩) = ⟨0, 0, 1⟩ := by
    have : GLSL.mulVec3 (glossScene (K := ℝ)).normalMatrix ⟨0, 0, 1⟩ = ⟨0, 0, 1⟩ := by
      simp [GLSL.mulVec3, glossScene]
    rw [this, gloss_normal]
  have hP : GLSL.xyz (GLSL.mulVec4 (glossScene (K := ℝ)).modelViewMatrix
      (GLSL.vec4 ⟨-24, 0, -7⟩ 1)) = ⟨-24, 0, -7⟩ := by
    simp [GLSL.mulVec4, GLSL.xyz, GLSL.vec4, glossScene]
  have hunit : GLSL.dot (⟨0, 0, 1⟩ : Vec3 ℝ) ⟨0, 0, 1⟩ = 1 := by norm_num [GLSL.dot]
  ⟨hN, hP, hunit, gouraud_matches_phong _ glossScene _ _ _ _ hN hP hunit⟩

/-! ## Keys, idle steps and the HUD -/

section UITheorems

variable {K : Type} [LinearOrderedField K]

theorem keyboard_m_def (x y : Int) (s : UIState K) :
    keyboard 'm' x y s =
    if s.materialIndex + 1 > 2147483647 ∨ s.materials.length = 0 then .undefined
    else .next { s with
      materialIndex := ((s.materialIndex + 1) % 2 ^ 64) % (s.materials.length : Int) } := rfl

theorem keyboard_other (key : Char) (x y : Int) (s : UIState K) (h : key ∉ handledKeys) :
    keyboard key x y s = .next s := by
  simp only [handledKeys, List.mem_cons, List.mem_singleton, not_or, List.mem_nil_iff,
    not_false_eq_true, and_true] at h
  obtain ⟨h1, h2, h3, h4, h5, h6, h7, h8, h9, h10, h11, h12, h13, h14, h15, h16, h17, h18, h19,
    h20⟩ := h
  unfold keyboard
  rw [if_neg h1, if_neg h2, if_neg h3, if_neg h4, if_neg h5, if_neg h6, if_neg h7, if_neg h8,
    if_neg h9, if_neg h10, if_neg h11, if_neg h12, if_neg h13, if_neg h14, if_neg h15,
    if_neg h16, if_neg h17, if_neg h18, if_neg h19, if_neg h20]

theorem keyboard_materials (key : Char) (x y : Int) (s s1 : UIState K)
    (h : keyboard key x y s = .next s1) : s1.materials = s.materials := by
  by_cases hk : key ∈ handledKeys
  · simp only [handledKeys, List.mem_cons, List.mem_singleton, List.mem_nil_iff, or_false] at hk
    rcases hk with rfl | rfl | rfl | rfl | rfl | rfl | rfl | rfl | rfl | rfl | rfl | rfl | rfl |
      rfl | rfl | rfl | rfl | rfl | rfl | rfl
    all_goals first
      | (cases h; rfl)
      | cases h
      | (rw [keyboard_m_def] at h; split at h <;> cases h; rfl)
  · rw [keyboard_other key x y s hk] at h
    cases h
    rfl

theorem keyboard_materialIndex (key : Char) (x y : Int) (s s1 : UIState K)
    (h : keyboard key x y s = .next s1) :
    s1.materialIndex = s.materialIndex ∨
      s1.materialIndex = ((s.materialIndex + 1) % 2 ^ 64) % (s.materials.length : Int) := by
  by_cases hk : key ∈ handledKeys
  · simp only [handledKeys, List.mem_cons, List.mem_singleton, List.mem_nil_iff, or_false] at hk
    rcases hk with rfl | rfl | rfl | rfl | rfl | rfl | rfl | rfl | rfl | rfl | rfl | rfl | rfl |
      rfl | rfl | rfl | rfl | rfl | rfl | rfl
    all_goals first
      | (cases h; left; rfl)
      | cases h
      | (rw [keyboard_m_def] at h; split at h <;> cases h; right; rfl)
  · rw [keyboard_other key x y s hk] at h
    cases h
    left; rfl

theorem keyboard_shadeMode (key : Char) (x y : Int) (s s1 : UIState K)
    (h : keyboard key x y s = .next s1) :
    s1.shadeMode = s.shadeMode ∨ s1.shadeMode = 1 ∨ s1.shadeMode = 2 ∨ s1.shadeMode = 3 := by
  by_cases hk : key ∈ handledKeys
  · simp only [handledKeys, List.mem_cons, List.mem_singleton, List.mem_nil_iff, or_false] at hk
    rcases hk with rfl | rfl | rfl | rfl | rfl | rfl | rfl | rfl | rfl | rfl | rfl | rfl | rfl |
      rfl | rfl | rfl | rfl | rfl | rfl | rfl
    all_goals first
      | (cases h; left; rfl)
      | (cases h; right; left; rfl)
      | (cases h; right; right; left; rfl)
      | (cases h; right; right; right; rfl)
      | cases h
      | (rw [keyboard_m_def] at h; split at h <;> cases h; left; rfl)
  · rw [keyboard_other key x y s hk] at h
    cases h
    left; rfl

theorem keyboard_autoRotateLight (key : Char) (x y : Int) (s s1 : UIState K)
    (hl : key ≠ 'l') (h : keyboard key x y s = .next s1) :
    s1.autoRotateLight = s.autoRotateLight := by
  by_cases hk : key ∈ handledKeys
  · simp only [handledKeys, List.mem_cons, List.mem_singleton, List.mem_nil_iff, or_false] at hk
    rcases hk with rfl | rfl | rfl | rfl | rfl | rfl | rfl | rfl | rfl | rfl | rfl | rfl | rfl |
      rfl | rfl | rfl | rfl | rfl | rfl | rfl
    all_goals first
      | exact absurd rfl hl
      | (cases h; rfl)
      | cases h
      | (rw [keyboard_m_def] at h; split at h <;> cases h; rfl)
  · rw [keyboard_other key x y s hk] at h
    cases h
    rfl

theorem step_materialsOk (s s1 : UIState K) (e : Event) (h : step s e = .next s1)
    (hs : MaterialsOk s) : MaterialsOk s1 := by
  obtain ⟨h3, h0, h2⟩ := hs
  cases e with
  | key c x y =>
    have hm := keyboard_materials c x y s s1 h
    rcases keyboard_materialIndex c x y s s1 h with hi | hi
    · exact ⟨by rw [hm, h3], by rw [hi]; exact h0, by rw [hi]; exact h2⟩
    · refine ⟨by rw [hm, h3], ?_, ?_⟩ <;> rw [hi, h3] <;> omega
  | idle =>
    simp only [step, Outcome.next.injEq] at h
    subst h
    unfold idle
    split <;> exact ⟨h3, h0, h2⟩
  | reshape w h1 =>
    simp only [step, Outcome.next.injEq] at h
    subst h
    exact ⟨h3, h0, h2⟩

theorem step_shadeOk (s s1 : UIState K) (e : Event) (h : step s e = .next s1)
    (hs : ShadeOk s) : ShadeOk s1 := by
  cases e with
  | key c x y =>
    rcases keyboard_shadeMode c x y s s1 h with hi | hi
    · unfold ShadeOk; rw [hi]; exact hs
    · exact hi
  | idle =>
    simp only [step, Outcome.next.injEq] at h
    subst h
    unfold idle
    split <;> exact hs
  | reshape w h1 =>
    simp only [step, Outcome.next.injEq] at h
    subst h
    exact hs

theorem run_invariant (P : UIState K → Prop)
    (hstep : ∀ (s s1 : UIState K) (e : Event), step s e = .next s1 → P s → P s1) :
    ∀ (evs : List Event) (s s1 : UIState K), run s evs = .next s1 → P s → P s1 := by
  intro evs
  induction evs with
  | nil =>
    intro s s1 h hs
    simp only [run, Outcome.next.injEq] at h
    subst h
    exact hs
  | cons e es ih =>
    intro s s1 h hs
    unfold run at h
    cases he : step s e with
    | next s2 =>
      rw [he] at h
      exact ih s2 s1 h (hstep s s2 e he hs)
    | exited => rw [he] at h; exact Outcome.noConfusion h
    | undefined => rw [he] at h; exact Outcome.noConfusion h

theorem mainInit_materialsOk : MaterialsOk (mainInit : UIState K) := by
  refine ⟨rfl, ?_, ?_⟩ <;> simp [mainInit, initMaterials, initialUI]

theorem mainInit_shadeOk : ShadeOk (mainInit : UIState K) :=
  Or.inr (Or.inr rfl)

theorem keyboard_m (x y : Int) (s : UIState K) (hs : MaterialsOk s) :
    keyboard 'm' x y s = .next { s with materialIndex := (s.materialIndex + 1) % 3 } := by
  obtain ⟨h3, h0, h2⟩ := hs
  have h1 : (s.materialIndex + 1) % 2 ^ 64 % (s.materials.length : Int)
      = (s.materialIndex + 1) % 3 := by
    rw [h3]; omega
  rw [keyboard_m_def, if_neg (by rw [h3]; omega), h1]

theorem three_m_presses (x y : Int) (s : UIState K) (hs : MaterialsOk s) :
    run s [.key 'm' x y, .key 'm' x y, .key 'm' x y] = .next s := by
  have hs0 := hs
  obtain ⟨h3, h0, h2⟩ := hs
  have e1 := keyboard_m x y s hs0
  have hs1 : MaterialsOk ({ s with materialIndex := (s.materialIndex + 1) % 3 } : UIState K) :=
    ⟨h3, by show 0 ≤ (s.materialIndex + 1) % 3; omega,
      by show (s.materialIndex + 1) % 3 < 3; omega⟩
  have e2 := keyboard_m x y _ hs1
  have hs2 : MaterialsOk ({ s with materialIndex := ((s.materialIndex + 1) % 3 + 1) % 3 }
      : UIState K) :=
    ⟨h3, by show 0 ≤ ((s.materialIndex + 1) % 3 + 1) % 3; omega,
      by show ((s.materialIndex + 1) % 3 + 1) % 3 < 3; omega⟩
  have e3 := keyboard_m x y _ hs2
  have hi : (((s.materialIndex + 1) % 3 + 1) % 3 + 1) % 3 = s.materialIndex := by omega
  simp only [run, step, e1, e2, e3, hi]

/-- C7: `initMaterials` installs exactly three materials; in every state
that the main loop reaches from the start, `materialIndex` is 0, 1 or 2, so
`materials[materialIndex]` is in bounds; an `m` press changes it to
`(materialIndex + 1) mod 3` and nothing else; three `m` presses in a row
restore the state. -/
theorem materialIndex_cycles (evs : List Event) (s : UIState K) (x y : Int)
    (h : run mainInit evs = .next s) :
    (∀ s0 : UIState K, (initMaterials s0).materials.length = 3) ∧
    s.materials.length = 3 ∧
    (s.materialIndex = 0 ∨ s.materialIndex = 1 ∨ s.materialIndex = 2) ∧
    (∃ mat, at? s.materials s.materialIndex = some mat) ∧
    keyboard 'm' x y s = .next { s with materialIndex := (s.materialIndex + 1) % 3 } ∧
    run s [.key 'm' x y, .key 'm' x y, .key 'm' x y] = .next s := by
  have hs : MaterialsOk s :=
    run_invariant MaterialsOk step_materialsOk evs mainInit s h mainInit_materialsOk
  obtain ⟨h3, h0, h2⟩ := hs
  refine ⟨fun _ => rfl, h3, by omega, ?_, keyboard_m x y s ⟨h3, h0, h2⟩,
    three_m_presses x y s ⟨h3, h0, h2⟩⟩
  exact (at?_bounds s.materials s.materialIndex).mpr ⟨h0, by rw [h3]; exact h2⟩

/-- C8: the light does not move on its own by default.  `autoRotateLight` is
false initially and when the main loop starts; with it false `idle` leaves
the whole state unchanged; only an `l` press changes it, and that press
toggles it; with it true one `idle` step adds `0.01` to `lightAngle` and
subtracts `twoPi` when the sum exceeds `twoPi`, the literal by which the
program writes `2*pi`, less than `10^-12` away from it. -/
theorem light_auto_rotation (s : UIState K) :
    |(twoPi : ℝ) - 2 * Real.pi| < 1 / 10 ^ 12 ∧
    (initialUI : UIState K).autoRotateLight = false ∧
    (mainInit : UIState K).autoRotateLight = false ∧
    (s.autoRotateLight = false → idle s = s) ∧
    (∀ (key : Char) (x y : Int) (s1 : UIState K), key ≠ 'l' → keyboard key x y s = .next s1 →
      s1.autoRotateLight = s.autoRotateLight) ∧
    (idle s).autoRotateLight = s.autoRotateLight ∧
    (∀ w h : Int, (reshape w h s).autoRotateLight = s.autoRotateLight) ∧
    (∀ x y : Int, keyboard 'l' x y s
      = .next { s with autoRotateLight := !s.autoRotateLight }) ∧
    (s.autoRotateLight = true →
      idle s = { s with lightAngle :=
        if s.lightAngle + 0.01 > twoPi then s.lightAngle + 0.01 - twoPi
        else s.lightAngle + 0.01 }) := by
  refine ⟨?_, rfl, rfl, ?_, ?_, ?_, ?_, ?_, ?_⟩
  · have h1 := Real.pi_gt_d20
    have h2 := Real.pi_lt_d20
    rw [abs_lt]
    unfold twoPi
    constructor <;> norm_num at h1 h2 ⊢ <;> linarith
  · intro hf
    simp [idle, hf]
  · intro key x y s1 hl h
    exact keyboard_autoRotateLight key x y s s1 hl h
  · unfold idle
    split <;> rfl
  · intro w h
    rfl
  · intro x y
    rfl
  · intro ht
    simp [idle, ht]

/-- C9: from every state the `r` key sets `camAngle`, `camRadius`,
`camHeight`, `lightAngle`, `lightRadius`, `lightHeight` to `0, 3.0, 0, 0,
1.2, 0.5`, their initial values, and changes no other field, in particular
not `shadeMode`, `materialIndex`, `perspectiveOn`, `autoRotateLight`; a
second `r` press changes nothing more. -/
theorem reset_key (s : UIState K) (x y : Int) :
    ∃ s1, keyboard 'r' x y s = .next s1 ∧
      s1 = { s with camAngle := 0, camRadius := 3.0, camHeight := 0, lightAngle := 0,
                    lightRadius := 1.2, lightHeight := 0.5 } ∧
      s1.camAngle = (initialUI : UIState K).camAngle ∧
      s1.camRadius = (initialUI : UIState K).camRadius ∧
      s1.camHeight = (initialUI : UIState K).camHeight ∧
      s1.lightAngle = (initialUI : UIState K).lightAngle ∧
      s1.lightRadius = (initialUI : UIState K).lightRadius ∧
      s1.lightHeight = (initialUI : UIState K).lightHeight ∧
      s1.shadeMode = s.shadeMode ∧ s1.materialIndex = s.materialIndex ∧
      s1.perspectiveOn = s.perspectiveOn ∧ s1.autoRotateLight = s.autoRotateLight ∧
      keyboard 'r' x y s1 = .next s1 := by
  have h0 : ((0.0 : K)) = 0 := by norm_num
  refine ⟨_, rfl, ?_, ?_, rfl, rfl, rfl, rfl, rfl, rfl, rfl, rfl, rfl, rfl⟩
  · simp only [h0]
  · exact h0.symm

/-- C10: `shadeMode` is 3 at the start and is 1, 2 or 3 in every state that
the main loop reaches; the keys `1`, `2`, `3` set it to 1, 2, 3 and change no
other field; the second HUD line that `display` builds is `Shade: Flat`,
`Shade: Gouraud`, `Shade: Phong` for the modes 1, 2, 3. -/
theorem shade_keys (fmt : K → String) (evs : List Event) (s : UIState K) (x y : Int)
    (h : run mainInit evs = .next s) :
    (mainInit : UIState K).shadeMode = 3 ∧
    (s.shadeMode = 1 ∨ s.shadeMode = 2 ∨ s.shadeMode = 3) ∧
    keyboard '1' x y s = .next { s with shadeMode := 1 } ∧
    keyboard '2' x y s = .next { s with shadeMode := 2 } ∧
    keyboard '3' x y s = .next { s with shadeMode := 3 } ∧
    ∃ lines, hudLines fmt s = some lines ∧
      (s.shadeMode = 1 → lines[1]? = some "Shade: Flat") ∧
      (s.shadeMode = 2 → lines[1]? = some "Shade: Gouraud") ∧
      (s.shadeMode = 3 → lines[1]? = some "Shade: Phong") := by
  have hs : ShadeOk s :=
    run_invariant ShadeOk step_shadeOk evs mainInit s h mainInit_shadeOk
  have hm : MaterialsOk s :=
    run_invariant MaterialsOk step_materialsOk evs mainInit s h mainInit_materialsOk
  obtain ⟨mat, hmat⟩ := (at?_bounds s.materials s.materialIndex).mpr
    ⟨hm.2.1, by rw [hm.1]; exact hm.2.2⟩
  refine ⟨rfl, hs, rfl, rfl, rfl, ?_⟩
  unfold hudLines
  rw [hmat]
  refine ⟨_, rfl, ?_, ?_, ?_⟩
  · intro h1
    simp only [h1, List.getElem?_cons_succ, List.getElem?_cons_zero, if_true]
    rfl
  · intro h2
    simp only [h2, List.getElem?_cons_succ, List.getElem?_cons_zero]
    rfl
  · intro h3
    simp only [h3, List.getElem?_cons_succ, List.getElem?_cons_zero]
    rfl

end UITheorems

/-! ## Worked examples -/

/-- C1 (worked example): the rectangle text meets the ordering precondition and
loads as the contract says. -/
theorem loadSMF_reads_vertices_and_faces_witness :
    (initialMesh : Mesh ℝ).triangles = [] ∧
    facesOrdered (K := ℝ) sampleReadFloat sampleReadInt 0 (getlines rectangleText) = true ∧
    ∃ m, loadSMF sampleReadFloat sampleReadInt Real.sqrt (some rectangleText) initialMesh
        = some (true, m) ∧
      m.vertices.map (fun v => v.p)
        = vLines sampleReadFloat sampleReadInt (getlines rectangleText) ∧
      m.triangles.map Tri.corners
        = (fLines (K := ℝ) sampleReadFloat sampleReadInt (getlines rectangleText)).map
            zeroBased ∧
      (∀ t ∈ m.triangles, HasFaceNormal Real.sqrt (m.vertices.map fun v => v.p) t) ∧
      ∀ text2 : List Char,
        (getlines text2).filter isVF = (getlines rectangleText).filter isVF →
        loadSMF sampleReadFloat sampleReadInt Real.sqrt (some text2) initialMesh
          = loadSMF sampleReadFloat sampleReadInt Real.sqrt (some rectangleText) initialMesh :=
  ⟨rfl, by decide,
    loadSMF_reads_vertices_and_faces sampleReadFloat sampleReadInt Real.sqrt rectangleText
      initialMesh rfl (by decide)⟩

/-- C2 (worked example): the vertex normals of the rectangle text. -/
theorem loadSMF_vertex_normals_witness :
    (initialMesh : Mesh ℝ).triangles = [] ∧
    facesOrdered (K := ℝ) sampleReadFloat sampleReadInt 0 (getlines rectangleText) = true ∧
    ∃ m, loadSMF sampleReadFloat sampleReadInt Real.sqrt (some rectangleText) initialMesh
        = some (true, m) ∧
      ∀ (i : Nat) (v : Vertex ℝ), m.vertices[i]? = some v →
        v.n = normalize Real.sqrt
          (vsum ((m.triangles.filter (incident i)).map fun t => t.fn)) :=
  ⟨rfl, by decide,
    loadSMF_vertex_normals sampleReadFloat sampleReadInt Real.sqrt rectangleText
      initialMesh rfl (by decide)⟩

/-- C4 (worked example): the rectangle loads to `rectangleMesh`, with centroid
`(3, 4, 0)` and scale `1/5`, which satisfy the contract. -/
theorem loadSMF_centroid_and_scale_witness :
    loadSMF sampleReadFloat sampleReadInt Real.sqrt (some rectangleText) initialMesh
      = some (true, rectangleMesh) ∧
    (rectangleMesh : Mesh ℝ).vertices ≠ [] ∧
    (rectangleMesh : Mesh ℝ).centroid = mean ((rectangleMesh : Mesh ℝ).vertices.map fun v => v.p) ∧
    ∃ maxd : ℝ,
      (∀ v ∈ (rectangleMesh : Mesh ℝ).vertices,
        distance Real.sqrt v.p (rectangleMesh : Mesh ℝ).centroid ≤ maxd) ∧
      (∃ v ∈ (rectangleMesh : Mesh ℝ).vertices,
        distance Real.sqrt v.p (rectangleMesh : Mesh ℝ).centroid = maxd) ∧
      (rectangleMesh : Mesh ℝ).modelScale = 1 / (if maxd < 1 / 1000000 then 1 else maxd) ∧
      0 < (rectangleMesh : Mesh ℝ).modelScale ∧
      (∀ v ∈ (rectangleMesh : Mesh ℝ).vertices,
        (rectangleMesh : Mesh ℝ).modelScale
          * distance Real.sqrt v.p (rectangleMesh : Mesh ℝ).centroid ≤ 1) ∧
      (1 / 1000000 ≤ maxd →
        ∃ v ∈ (rectangleMesh : Mesh ℝ).vertices,
          (rectangleMesh : Mesh ℝ).modelScale
            * distance Real.sqrt v.p (rectangleMesh : Mesh ℝ).centroid = 1) :=
  ⟨loadSMF_rectangle, by simp [rectangleMesh],
    loadSMF_centroid_and_scale sampleReadFloat sampleReadInt rectangleText initialMesh
      rectangleMesh loadSMF_rectangle (by simp [rectangleMesh])⟩

/-- C7 (worked example): the state after the keys `m` and `2`. -/
theorem materialIndex_cycles_witness :
    run (mainInit : UIState ℚ) [.key 'm' 0 0, .key '2' 0 0]
      = .next { (mainInit : UIState ℚ) with materialIndex := 1, shadeMode := 2 } ∧
    (({ (mainInit : UIState ℚ) with materialIndex := 1, shadeMode := 2 } : UIState ℚ).materialIndex
        = 0 ∨
      ({ (mainInit : UIState ℚ) with materialIndex := 1, shadeMode := 2 } : UIState ℚ).materialIndex
        = 1 ∨
      ({ (mainInit : UIState ℚ) with materialIndex := 1, shadeMode := 2 } : UIState ℚ).materialIndex
        = 2) :=
  ⟨rfl, (materialIndex_cycles [.key 'm' 0 0, .key '2' 0 0]
    { (mainInit : UIState ℚ) with materialIndex := 1, shadeMode := 2 } 0 0 rfl).2.2.1⟩

/-- C8 (worked example): `idle` at the start state, and at the start state with
auto-rotation switched on. -/
theorem light_auto_rotation_witness :
    (mainInit : UIState ℚ).autoRotateLight = false ∧
    idle (mainInit : UIState ℚ) = mainInit ∧
    ({ (mainInit : UIState ℚ) with autoRotateLight := true } : UIState ℚ).autoRotateLight = true ∧
    idle ({ (mainInit : UIState ℚ) with autoRotateLight := true } : UIState ℚ)
      = { ({ (mainInit : UIState ℚ) with autoRotateLight := true } : UIState ℚ) with
          lightAngle :=
            if ({ (mainInit : UIState ℚ) with autoRotateLight := true } : UIState ℚ).lightAngle
                + 0.01 > twoPi
            then ({ (mainInit : UIState ℚ) with autoRotateLight := true } : UIState ℚ).lightAngle
                + 0.01 - twoPi
            else ({ (mainInit : UIState ℚ) with autoRotateLight := true } : UIState ℚ).lightAngle
                + 0.01 } :=
  ⟨rfl, (light_auto_rotation (mainInit : UIState ℚ)).2.2.2.1 rfl, rfl,
    (light_auto_rotation
      ({ (mainInit : UIState ℚ) with autoRotateLight := true } : UIState ℚ)).2.2.2.2.2.2.2.2 rfl⟩

/-- C10 (worked example): the key `1` in the state after the keys `m` and `2`. -/
theorem shade_keys_witness :
    run (mainInit : UIState ℚ) [.key 'm' 0 0, .key '2' 0 0]
      = .next { (mainInit : UIState ℚ) with materialIndex := 1, shadeMode := 2 } ∧
    keyboard '1' 0 0 ({ (mainInit : UIState ℚ) with materialIndex := 1, shadeMode := 2 } : UIState ℚ)
      = .next { ({ (mainInit : UIState ℚ) with materialIndex := 1, shadeMode := 2 } : UIState ℚ)
          with shadeMode := 1 } :=
  ⟨rfl, (shade_keys (fun _ => "") [.key 'm' 0 0, .key '2' 0 0]
    { (mainInit : UIState ℚ) with materialIndex := 1, shadeMode := 2 } 0 0 rfl).2.2.1⟩

/-! ## The radius clamps -/

section RadiusClamps

variable {K : Type} [LinearOrderedField K]

theorem keyboard_radiiOk (key : Char) (x y : Int) (s s1 : UIState K)
    (h : keyboard key x y s = .next s1) (hs : RadiiOk s) : RadiiOk s1 := by
  obtain ⟨hc, hl⟩ := hs
  by_cases hk : key ∈ handledKeys
  · simp only [handledKeys, List.mem_cons, List.mem_singleton, List.mem_nil_iff, or_false] at hk
    rcases hk with rfl | rfl | rfl | rfl | rfl | rfl | rfl | rfl | rfl | rfl | rfl | rfl | rfl |
      rfl | rfl | rfl | rfl | rfl | rfl | rfl
    all_goals first
      | (cases h; exact ⟨hc, hl⟩)
      | (rw [keyboard_m_def] at h; split at h <;> cases h; exact ⟨hc, hl⟩)
      | (cases h; refine ⟨?_, hl⟩
         show (0.1 : K) ≤ s.camRadius + 0.08
         have : (0 : K) ≤ 0.08 := by norm_num
         linarith)
      | (cases h; exact ⟨le_max_left _ _, hl⟩)
      | (cases h; exact ⟨hc, le_max_left _ _⟩)
      | (cases h; refine ⟨hc, ?_⟩
         show (0.05 : K) ≤ s.lightRadius + 0.05
         have : (0 : K) ≤ 0.05 := by norm_num
         linarith)
      | (cases h; refine ⟨?_, ?_⟩
         · show (0.1 : K) ≤ 3.0
           norm_num
         · show (0.05 : K) ≤ 1.2
           norm_num)
      | cases h
  · rw [keyboard_other key x y s hk] at h
    cases h
    exact ⟨hc, hl⟩

theorem step_radiiOk (s s1 : UIState K) (e : Event) (h : step s e = .next s1)
    (hs : RadiiOk s) : RadiiOk s1 := by
  cases e with
  | key c x y => exact keyboard_radiiOk c x y s s1 h hs
  | idle =>
    simp only [step, Outcome.next.injEq] at h
    subst h
    unfold idle
    split <;> exact hs
  | reshape w h1 =>
    simp only [step, Outcome.next.injEq] at h
    subst h
    exact hs

theorem mainInit_radiiOk : RadiiOk (mainInit : UIState K) := by
  refine ⟨?_, ?_⟩
  · show (0.1 : K) ≤ 3.0
    norm_num
  · show (0.05 : K) ≤ 1.2
    norm_num

/-- C12: the radius clamps are invariants of the main loop.  From the start
state, with `camRadius = 3.0` and `lightRadius = 1.2`, every state reached by
key presses (and idle and reshape events) has `camRadius ≥ 0.1` and
`lightRadius ≥ 0.05`; from any state whatever the `e` key leaves
`camRadius ≥ 0.1` and the `c` key leaves `lightRadius ≥ 0.05`, and the `q`
and `v` keys make `camRadius` and `lightRadius` strictly larger. -/
theorem radius_clamps (evs : List Event) (s s0 : UIState K) (x y : Int)
    (h : run mainInit evs = .next s) :
    (mainInit : UIState K).camRadius = 3.0 ∧ (mainInit : UIState K).lightRadius = 1.2 ∧
    0.1 ≤ s.camRadius ∧ 0.05 ≤ s.lightRadius ∧
    (∃ s1, keyboard 'e' x y s0 = .next s1 ∧ 0.1 ≤ s1.camRadius ∧
      s1.camRadius = max 0.1 (s0.camRadius - 0.08)) ∧
    (∃ s1, keyboard 'c' x y s0 = .next s1 ∧ 0.05 ≤ s1.lightRadius ∧
      s1.lightRadius = max 0.05 (s0.lightRadius - 0.05)) ∧
    (∃ s1, keyboard 'q' x y s0 = .next s1 ∧ s0.camRadius < s1.camRadius ∧
      s1.lightRadius = s0.lightRadius) ∧
    (∃ s1, keyboard 'v' x y s0 = .next s1 ∧ s0.lightRadius < s1.lightRadius ∧
      s1.camRadius = s0.camRadius) := by
  have hs : RadiiOk s :=
    run_invariant RadiiOk step_radiiOk evs mainInit s h mainInit_radiiOk
  refine ⟨rfl, rfl, hs.1, hs.2, ⟨_, rfl, le_max_left _ _, rfl⟩, ⟨_, rfl, le_max_left _ _, rfl⟩,
    ⟨_, rfl, ?_, rfl⟩, ⟨_, rfl, ?_, rfl⟩⟩
  · show s0.camRadius < s0.camRadius + 0.08
    have : (0 : K) < 0.08 := by norm_num
    linarith
  · show s0.lightRadius < s0.lightRadius + 0.05
    have : (0 : K) < 0.05 := by norm_num
    linarith

end RadiusClamps

/-- C12 (worked example): the radii after the keys `e` and `c` from the start
state. -/
theorem radius_clamps_witness :
    run (mainInit : UIState ℚ) [.key 'e' 0 0, .key 'c' 0 0]
      = .next { (mainInit : UIState ℚ) with
          camRadius := max 0.1 ((mainInit : UIState ℚ).camRadius - 0.08),
          lightRadius := max 0.05 ((mainInit : UIState ℚ).lightRadius - 0.05) } ∧
    (0.1 : ℚ) ≤ max 0.1 ((mainInit : UIState ℚ).camRadius - 0.08) ∧
    (0.05 : ℚ) ≤ max 0.05 ((mainInit : UIState ℚ).lightRadius - 0.05) :=
  have h := radius_clamps [.key 'e' 0 0, .key 'c' 0 0]
    { (mainInit : UIState ℚ) with
      camRadius := max 0.1 ((mainInit : UIState ℚ).camRadius - 0.08),
      lightRadius := max 0.05 ((mainInit : UIState ℚ).lightRadius - 0.05) } mainInit 0 0 rfl
  ⟨rfl, h.2.2.1, h.2.2.2.1⟩

/-! ## The vector accesses of the loader -/

section AccessTheorems

variable {K : Type} [LinearOrderedField K]

omit [LinearOrderedField K] in
theorem lineAccesses_eq (rdF : Reader K) (rdI : Reader Int) (pts : List (Vec3 K))
    (line : List Char) :
    lineAccesses rdI pts line =
      match lineKind rdF rdI line with
      | .face a b c =>
        [⟨b - 1, pts.length⟩, ⟨a - 1, pts.length⟩, ⟨c - 1, pts.length⟩, ⟨a - 1, pts.length⟩]
      | _ => [] := by
  unfold lineAccesses lineKind read3
  cases hc : readChar line with
  | none => rfl
  | some cr =>
    obtain ⟨c, r0⟩ := cr
    by_cases hv : c = 'v'
    · simp only [hv, if_true]
      generalize ((rdF r0).bind fun r1 => (rdF r1.2).bind fun r2 =>
        Option.map (fun r3 => (r1.1, r2.1, r3.1)) (rdF r2.2)) = o
      cases o with
      | none => rfl
      | some x =>
        obtain ⟨x1, x2, x3⟩ := x
        rfl
    · by_cases hf : c = 'f'
      · simp only [hf, if_true]
        cases h1 : rdI r0 with
        | none => simp
        | some x1 =>
          cases h2 : rdI x1.2 with
          | none => simp [h2]
          | some x2 =>
            cases h3 : rdI x2.2 with
            | none => simp [h2, h3]
            | some x3 => simp [h2, h3]
      · simp [hv, hf]

theorem inBounds_of_inRange (n : Nat) (a : Int) (h : inRange n a = true) :
    (⟨a - 1, n⟩ : IndexAccess).inBounds = true := by
  unfold inRange at h
  simp only [Bool.and_eq_true, decide_eq_true_eq] at h
  simp only [IndexAccess.inBounds, Bool.and_eq_true, decide_eq_true_eq]
  omega

theorem inRange_of_inBounds (n : Nat) (a : Int)
    (h : (⟨a - 1, n⟩ : IndexAccess).inBounds = true) : inRange n a = true := by
  simp only [IndexAccess.inBounds, Bool.and_eq_true, decide_eq_true_eq] at h
  simp only [inRange, Bool.and_eq_true, decide_eq_true_eq]
  omega

theorem readAccesses_inBounds (rdF : Reader K) (rdI : Reader Int) (sqrtf : K → K) :
    ∀ (lines : List (List Char)) (st : ParseState K),
      facesOrdered rdF rdI st.pts.length lines = true →
      ∀ a ∈ readAccesses rdF rdI sqrtf lines st, a.inBounds = true := by
  intro lines
  induction lines with
  | nil =>
    intro st _ a ha
    simp [readAccesses] at ha
  | cons l ls ih =>
    intro st h a ha
    unfold facesOrdered at h
    unfold readAccesses at ha
    rw [lineAccesses_eq rdF rdI, processLine_eq] at ha
    cases hk : lineKind rdF rdI l with
    | other =>
      rw [hk] at h ha
      simp only [List.nil_append] at ha
      exact ih st h a ha
    | malformed =>
      rw [hk] at h
      exact absurd h (by simp)
    | vertex p =>
      rw [hk] at h ha
      simp only [List.nil_append] at ha
      exact ih _ (by simpa using h) a ha
    | face fa fb fc =>
      rw [hk] at h ha
      simp only [Bool.and_eq_true] at h
      obtain ⟨⟨⟨h1, h2⟩, h3⟩, hrest⟩ := h
      obtain ⟨pa, hpa⟩ := at?_inRange st.pts fa h1
      obtain ⟨pb, hpb⟩ := at?_inRange st.pts fb h2
      obtain ⟨pc, hpc⟩ := at?_inRange st.pts fc h3
      simp only [hpa, hpb, hpc, List.mem_append, List.mem_cons, List.mem_singleton,
        List.mem_nil_iff, or_false] at ha
      rcases ha with (rfl | rfl | rfl | rfl) | ha
      · exact inBounds_of_inRange _ _ h2
      · exact inBounds_of_inRange _ _ h1
      · exact inBounds_of_inRange _ _ h3
      · exact inBounds_of_inRange _ _ h1
      · exact ih
          { st with triangles := st.triangles ++
              [⟨fa - 1, fb - 1, fc - 1, normalize sqrtf (cross (pb.sub pa) (pc.sub pa))⟩] }
          hrest a ha

theorem facesOrdered_of_inBounds (rdF : Reader K) (rdI : Reader Int) (sqrtf : K → K) :
    ∀ (lines : List (List Char)) (st : ParseState K),
      wellRead rdF rdI lines = true →
      (∀ a ∈ readAccesses rdF rdI sqrtf lines st, a.inBounds = true) →
      facesOrdered rdF rdI st.pts.length lines = true := by
  intro lines
  induction lines with
  | nil =>
    intro st _ _
    rfl
  | cons l ls ih =>
    intro st hw ha
    unfold wellRead at hw
    rw [List.all_cons, Bool.and_eq_true] at hw
    obtain ⟨hw1, hw2⟩ := hw
    unfold facesOrdered
    unfold readAccesses at ha
    rw [lineAccesses_eq rdF rdI, processLine_eq] at ha
    cases hk : lineKind rdF rdI l with
    | other =>
      rw [hk] at ha
      exact ih st hw2 (fun a h => ha a (by simpa using h))
    | malformed =>
      rw [hk] at hw1
      exact absurd hw1 (by simp)
    | vertex p =>
      rw [hk] at ha
      have := ih { st with pts := st.pts ++ [p] } hw2 (fun a h => ha a (by simpa using h))
      simpa using this
    | face fa fb fc =>
      rw [hk] at ha
      have h1 : inRange st.pts.length fa = true :=
        inRange_of_inBounds _ _ (ha _ (by simp))
      have h2 : inRange st.pts.length fb = true :=
        inRange_of_inBounds _ _ (ha _ (by simp))
      have h3 : inRange st.pts.length fc = true :=
        inRange_of_inBounds _ _ (ha _ (by simp))
      obtain ⟨pa, hpa⟩ := at?_inRange st.pts fa h1
      obtain ⟨pb, hpb⟩ := at?_inRange st.pts fb h2
      obtain ⟨pc, hpc⟩ := at?_inRange st.pts fc h3
      simp only [hpa, hpb, hpc] at ha
      have hrest := ih
        { st with triangles := st.triangles ++
            [⟨fa - 1, fb - 1, fc - 1, normalize sqrtf (cross (pb.sub pa) (pc.sub pa))⟩] } hw2
        (fun a h => ha a (List.mem_append_right _ h))
      simp only [h1, h2, h3, Bool.and_self, Bool.true_and]
      exact hrest

theorem finishAccesses_inBounds (sqrtf : K → K) (st : ParseState K)
    (h : ∀ t ∈ st.triangles, HasFaceNormal sqrtf st.pts t) :
    ∀ a ∈ finishAccesses st, a.inBounds = true := by
  intro a ha
  unfold finishAccesses at ha
  rw [List.mem_append] at ha
  rcases ha with ha | ha
  · rw [List.mem_flatMap] at ha
    obtain ⟨i, hi, ha⟩ := ha
    rw [List.mem_range] at hi
    simp only [List.mem_cons, List.mem_singleton, List.mem_nil_iff, or_false, or_self] at ha
    subst ha
    simp only [IndexAccess.inBounds, Bool.and_eq_true, decide_eq_true_eq]
    omega
  · rw [List.mem_flatMap] at ha
    obtain ⟨t, ht, ha⟩ := ha
    obtain ⟨⟨a0, a1⟩, ⟨b0, b1⟩, ⟨c0, c1⟩⟩ := (h t ht).inBounds
    simp only [triAccesses, List.mem_cons, List.mem_singleton, List.mem_nil_iff, or_false] at ha
    rcases ha with rfl | rfl | rfl | rfl | rfl | rfl <;>
      simp only [IndexAccess.inBounds, Bool.and_eq_true, decide_eq_true_eq] <;>
      constructor <;> assumption

theorem loadAccesses_inBounds (rdF : Reader K) (rdI : Reader Int) (sqrtf : K → K)
    (text : List Char) (g : Mesh K) (hg : g.triangles = [])
    (hwf : facesOrdered rdF rdI 0 (getlines text) = true) :
    (∀ a ∈ loadAccesses rdF rdI sqrtf text g, a.inBounds = true) ∧
      ∃ m, loadSMF rdF rdI sqrtf (some text) g = some (true, m) := by
  obtain ⟨st, e1, _, _, n1⟩ :=
    readLines_spec rdF rdI sqrtf (getlines text) ⟨[], g.triangles⟩ hwf
  have hn : ∀ t ∈ st.triangles, HasFaceNormal sqrtf st.pts t := by
    intro t ht
    rcases n1 t ht with h | h
    · rw [hg] at h
      exact absurd h (List.not_mem_nil t)
    · exact h
  obtain ⟨m, e2, _⟩ := finishLoad_spec sqrtf st hn
  refine ⟨?_, m, by simp only [loadSMF, e1, e2]⟩
  intro a ha
  unfold loadAccesses at ha
  rw [e1, List.mem_append] at ha
  rcases ha with ha | ha
  · exact readAccesses_inBounds rdF rdI sqrtf (getlines text) ⟨[], g.triangles⟩ hwf a ha
  · exact finishAccesses_inBounds sqrtf st hn a ha

/-- C11: the indexings of `pts` and `vertices` in `loadSMF` are in bounds
exactly under the ordering precondition.  If every face line names only
vertices declared on earlier `v` lines (each index `a` with
`1 ≤ a ≤` the number of `v` lines read before), every access is inside its
vector and the run is defined; conversely, when all lines are readable and
every access is in bounds, the precondition holds; and on the three texts in
which a face line precedes its vertices, uses the index 0, or uses an index
above the vertex count, all lines are readable, an access is out of bounds
and the run is undefined. -/
theorem loadSMF_indices_in_bounds (rdF : Reader K) (rdI : Reader Int) (sqrtf : K → K) :
    (∀ (text : List Char) (g : Mesh K), g.triangles = [] →
      facesOrdered rdF rdI 0 (getlines text) = true →
      (∀ a ∈ loadAccesses rdF rdI sqrtf text g, a.inBounds = true) ∧
        ∃ m, loadSMF rdF rdI sqrtf (some text) g = some (true, m)) ∧
    (∀ (text : List Char) (g : Mesh K), wellRead rdF rdI (getlines text) = true →
      (∀ a ∈ loadAccesses rdF rdI sqrtf text g, a.inBounds = true) →
      facesOrdered rdF rdI 0 (getlines text) = true) ∧
    (wellRead (K := K) sampleReadFloat sampleReadInt (getlines faceFirstText) = true ∧
      (⟨1, 0⟩ : IndexAccess) ∈
        loadAccesses sampleReadFloat sampleReadInt sqrtf faceFirstText initialMesh ∧
      (⟨1, 0⟩ : IndexAccess).inBounds = false ∧
      loadSMF sampleReadFloat sampleReadInt sqrtf (some faceFirstText) initialMesh = none) ∧
    (wellRead (K := K) sampleReadFloat sampleReadInt (getlines indexZeroText) = true ∧
      (⟨-1, 3⟩ : IndexAccess) ∈
        loadAccesses sampleReadFloat sampleReadInt sqrtf indexZeroText initialMesh ∧
      (⟨-1, 3⟩ : IndexAccess).inBounds = false ∧
      loadSMF sampleReadFloat sampleReadInt sqrtf (some indexZeroText) initialMesh = none) ∧
    (wellRead (K := K) sampleReadFloat sampleReadInt (getlines indexAboveText) = true ∧
      (⟨3, 3⟩ : IndexAccess) ∈
        loadAccesses sampleReadFloat sampleReadInt sqrtf indexAboveText initialMesh ∧
      (⟨3, 3⟩ : IndexAccess).inBounds = false ∧
      loadSMF sampleReadFloat sampleReadInt sqrtf (some indexAboveText) initialMesh = none) := by
  refine ⟨?_, ?_, ?_, ?_, ?_⟩
  · intro text g hg hwf
    exact loadAccesses_inBounds rdF rdI sqrtf text g hg hwf
  · intro text g hw ha
    exact facesOrdered_of_inBounds rdF rdI sqrtf (getlines text) ⟨[], g.triangles⟩ hw
      (fun a h => ha a (List.mem_append_left _ h))
  · refine ⟨rfl, ?_, rfl, rfl⟩
    have h : loadAccesses sampleReadFloat sampleReadInt sqrtf faceFirstText
        (initialMesh : Mesh K) = [⟨1, 0⟩, ⟨0, 0⟩, ⟨2, 0⟩, ⟨0, 0⟩] := rfl
    rw [h]
    exact List.mem_cons_self _ _
  · refine ⟨rfl, ?_, rfl, rfl⟩
    have h : loadAccesses sampleReadFloat sampleReadInt sqrtf indexZeroText
        (initialMesh : Mesh K) = [⟨0, 3⟩, ⟨-1, 3⟩, ⟨1, 3⟩, ⟨-1, 3⟩] := rfl
    rw [h]
    exact List.mem_cons_of_mem _ (List.mem_cons_self _ _)
  · refine ⟨rfl, ?_, rfl, rfl⟩
    have h : loadAccesses sampleReadFloat sampleReadInt sqrtf indexAboveText
        (initialMesh : Mesh K) = [⟨1, 3⟩, ⟨0, 3⟩, ⟨3, 3⟩, ⟨0, 3⟩] := rfl
    rw [h]
    exact List.mem_cons_of_mem _ (List.mem_cons_of_mem _ (List.mem_cons_self _ _))

end AccessTheorems

/-- C11 (worked example): the rectangle text meets the ordering precondition,
so all its accesses are in bounds and its run is defined. -/
theorem loadSMF_indices_in_bounds_witness :
    (initialMesh : Mesh ℝ).triangles = [] ∧
    facesOrdered (K := ℝ) sampleReadFloat sampleReadInt 0 (getlines rectangleText) = true ∧
    (∀ a ∈ loadAccesses sampleReadFloat sampleReadInt Real.sqrt rectangleText
        (initialMesh : Mesh ℝ), a.inBounds = true) ∧
    ∃ m, loadSMF sampleReadFloat sampleReadInt Real.sqrt (some rectangleText)
      (initialMesh : Mesh ℝ) = some (true, m) :=
  ⟨rfl, by decide,
    (loadSMF_indices_in_bounds sampleReadFloat sampleReadInt Real.sqrt).1 rectangleText
      initialMesh rfl (by decide)⟩

end SMFViewer
